import Mathlib

/-!
Verification of the jmap-server storage / replication core.

Each section embeds one part of the Rust source shallowly in Lean:
pure functions become Lean functions, machine integers become `Nat`/`Int`
with explicit `% 2 ^ 64` where wrap-around matters, fallible code returns
`Option` or `Except`.  Definitions follow the source files named in the
comments; parts of the repository whose source is not available are
modelled from the specification and marked `Modelled from the spec:`.
-/

namespace JmapVerify

/-! ## JMAP dates — `components/jmap/src/types/date.rs`

`JMAPDate::parse` is a byte-level state machine over the input string;
`Display` re-serializes with zero-padded fields and prints a zero offset
as `Z`.  The Rust code iterates over UTF-8 bytes; every byte of a
multi-byte character is ignored by the machine (it matches none of the
recognised ASCII bytes), exactly as iterating over characters and
ignoring non-ASCII ones, which is what the embedding does. -/

structure JMAPDate where
  year : Nat
  month : Nat
  day : Nat
  hour : Nat
  minute : Nat
  second : Nat
  tz_before_gmt : Bool
  tz_hour : Nat
  tz_minute : Nat
deriving DecidableEq, Repr

structure DateParseState where
  pos : Nat
  parts : List Nat
  sizes : List Nat
  skipDigits : Bool
  isPlus : Bool
deriving DecidableEq, Repr

def dateParseInit : DateParseState :=
  { pos := 0
    parts := [0, 0, 0, 0, 0, 0, 0, 0]
    sizes := [4, 2, 2, 2, 2, 2, 2, 2]
    skipDigits := false
    isPlus := true }

/-- One step of the `JMAPDate::parse` state machine (one input byte). -/
def dateParseStep (s : DateParseState) (ch : Char) : Option DateParseState :=
  if '0' ≤ ch ∧ ch ≤ '9' ∧ ¬s.skipDigits then
    if 0 < s.sizes.getD s.pos 0 then
      let newSize := s.sizes.getD s.pos 0 - 1
      some { s with
        sizes := s.sizes.set s.pos newSize
        parts := s.parts.set s.pos
          (s.parts.getD s.pos 0 + (ch.toNat - '0'.toNat) * 10 ^ newSize) }
    else
      none
  else if ch = '-' then
    if s.pos ≤ 1 then
      some { s with pos := s.pos + 1 }
    else if s.pos = 5 then
      some { s with pos := s.pos + 1, isPlus := false, skipDigits := false }
    else
      none
  else if ch = 'T' then
    if s.pos = 2 then some { s with pos := s.pos + 1 } else none
  else if ch = ':' then
    if s.pos = 3 ∨ s.pos = 4 ∨ s.pos = 6 then
      some { s with pos := s.pos + 1 }
    else
      none
  else if ch = '+' then
    if s.pos = 5 then
      some { s with pos := s.pos + 1, skipDigits := false }
    else
      none
  else if ch = '.' then
    if s.pos = 5 then some { s with skipDigits := true } else none
  else
    some s

/-- `JMAPDate::parse`.  The `as u16` / `as u8` casts in the source are
lossless because each part accumulates at most four decimal digits. -/
def JMAPDate.parse (value : String) : Option JMAPDate :=
  match value.data.foldlM dateParseStep dateParseInit with
  | none => none
  | some s =>
    if 5 ≤ s.pos then
      some { year := s.parts.getD 0 0
             month := s.parts.getD 1 0
             day := s.parts.getD 2 0
             hour := s.parts.getD 3 0
             minute := s.parts.getD 4 0
             second := s.parts.getD 5 0
             tz_hour := s.parts.getD 6 0
             tz_minute := s.parts.getD 7 0
             tz_before_gmt := ¬s.isPlus }
    else
      none

/-- Rust `{:0N}` formatting: left-pad with zeros up to width `w`. -/
def padNum (w n : Nat) : String :=
  let s := toString n
  String.mk (List.replicate (w - s.length) '0') ++ s

/-- `impl Display for JMAPDate`. -/
def JMAPDate.display (d : JMAPDate) : String :=
  if d.tz_hour ≠ 0 ∨ d.tz_minute ≠ 0 then
    padNum 4 d.year ++ "-" ++ padNum 2 d.month ++ "-" ++ padNum 2 d.day ++
      "T" ++ padNum 2 d.hour ++ ":" ++ padNum 2 d.minute ++ ":" ++
      padNum 2 d.second ++
      (if d.tz_before_gmt ∧ (0 < d.tz_hour ∨ 0 < d.tz_minute) then "-"
       else "+") ++
      padNum 2 d.tz_hour ++ ":" ++ padNum 2 d.tz_minute
  else
    padNum 4 d.year ++ "-" ++ padNum 2 d.month ++ "-" ++ padNum 2 d.day ++
      "T" ++ padNum 2 d.hour ++ ":" ++ padNum 2 d.minute ++ ":" ++
      padNum 2 d.second ++ "Z"

/-! ## Cron schedules — `src/services/housekeeper.rs`

`SimpleCron::parse` splits the `"MM HH DOW"` string on spaces.  The value
range checks are transcribed exactly as written in the source; `failed_to`
(a panic in Rust) is modelled as an `Except.error` carrying the message. -/

inductive SimpleCron where
  | everyDay (hour minute : Nat)
  | everyWeek (day hour minute : Nat)
deriving DecidableEq, Repr

/-- Rust `str::parse::<u32>`: optional leading `+`, one or more ASCII
digits, value below `2 ^ 32`. -/
def parseU32 (s : List Char) : Option Nat :=
  let ds := match s with
    | '+' :: rest => rest
    | l => l
  if ds.isEmpty ∨ ¬ds.all Char.isDigit then
    none
  else
    let n := ds.foldl (fun acc c => acc * 10 + (c.toNat - '0'.toNat)) 0
    if n < 2 ^ 32 then some n else none

/-- Rust `str::split(' ')`: splits at every space, keeping empty pieces. -/
def splitSpaces (l : List Char) : List (List Char) :=
  match l with
  | [] => [[]]
  | c :: rest =>
    let r := splitSpaces rest
    if c = ' ' then
      [] :: r
    else
      match r with
      | [] => [[c]]
      | h :: t => (c :: h) :: t

/-- `SimpleCron::parse`, transcribed from `housekeeper.rs`.  Note that the
weekday branch of the source checks `(1..=7).contains(&hour)` — the hour,
not the parsed weekday value. -/
def SimpleCron.parse (value : String) : Except String SimpleCron :=
  match splitSpaces value.data with
  | [] => .error "parse cron expression."
  | minuteStr :: rest =>
    match parseU32 minuteStr with
    | none => .error "parse minute."
    | some minute =>
      if ¬minute ≤ 59 then
        .error ("parse minute, invalid value: " ++ toString minute)
      else
        match rest with
        | [] => .error "parse cron expression."
        | hourStr :: rest2 =>
          match parseU32 hourStr with
          | none => .error "parse hour."
          | some hour =>
            if ¬hour ≤ 23 then
              .error ("parse hour, invalid value: " ++ toString hour)
            else
              match rest2 with
              | [] => .error "parse cron expression."
              | dayStr :: _ =>
                match dayStr.head? with
                | none => .error "parse weekday"
                | some c =>
                  if c = '*' then
                    .ok (.everyDay hour minute)
                  else
                    match parseU32 dayStr with
                    | none => .error "parse weekday."
                    | some day =>
                      if ¬(1 ≤ hour ∧ hour ≤ 7) then
                        .error ("parse weekday, invalid value: " ++
                          toString hour ++
                          ", range is 1 (Monday) to 7 (Sunday).")
                      else
                        .ok (.everyWeek day hour minute)

/-! ## Raft election state — `src/src/cluster/raft.rs`

`handle_vote_request` and its helpers `can_grant_vote`,
`log_is_behind_or_eq`, `step_down` and `vote_for`.  `TermId` and
`LogIndex` are `u64`; the single wrap-around the code relies on
(`last_log_index.wrapping_add(1)`) is made explicit as `% 2 ^ 64`.
Election timers (`election_due`), the per-peer `vote_granted` flags reset
by `reset_votes`, and the channel sends of the Rust code carry no data
relevant to the vote decision and are not modelled. -/

def wrappingAdd1 (i : Nat) : Nat := (i + 1) % 2 ^ 64

/-- The `u64::MAX` sentinel used by `RaftId::none()`. -/
def u64Max : Nat := 2 ^ 64 - 1

structure RaftId where
  term : Nat
  index : Nat
deriving DecidableEq, Repr

inductive NodeState where
  | wait
  | candidate
  | votedFor (peerId : Nat)
  | leader
  | follower (peerId : Nat)
deriving DecidableEq, Repr

structure Cluster where
  term : Nat
  lastLog : RaftId
  state : NodeState
  peers : List Nat
deriving DecidableEq, Repr

/-- Modelled from the spec: `is_known_peer` (defined outside the sampled
sources) tests whether the requesting peer id is registered. -/
def Cluster.isKnownPeer (c : Cluster) (peerId : Nat) : Bool :=
  c.peers.contains peerId

/-- `log_is_behind_or_eq`: term compared plainly, index compared after a
`wrapping_add(1)` so that the `u64::MAX` sentinel orders below `0`. -/
def Cluster.logIsBehindOrEq (c : Cluster) (lastLogTerm lastLogIndex : Nat) :
    Prop :=
  c.lastLog.term < lastLogTerm ∨
    (lastLogTerm = c.lastLog.term ∧
      wrappingAdd1 c.lastLog.index ≤ wrappingAdd1 lastLogIndex)

instance (c : Cluster) (t i : Nat) : Decidable (c.logIsBehindOrEq t i) := by
  unfold Cluster.logIsBehindOrEq; infer_instance

/-- `can_grant_vote`. -/
def Cluster.canGrantVote (c : Cluster) (candidatePeerId : Nat) : Prop :=
  match c.state with
  | .wait => True
  | .votedFor peerId => candidatePeerId = peerId
  | .leader | .follower _ | .candidate => False

instance (c : Cluster) (p : Nat) : Decidable (c.canGrantVote p) := by
  unfold Cluster.canGrantVote
  cases c.state <;> infer_instance

/-- `step_down`: adopt the higher term and fall back to `Wait`. -/
def Cluster.stepDown (c : Cluster) (term : Nat) : Cluster :=
  { c with term := term, state := .wait }

/-- `vote_for`. -/
def Cluster.voteFor (c : Cluster) (peerId : Nat) : Cluster :=
  { c with state := .votedFor peerId }

inductive VoteResponse where
  | vote (term : Nat) (voteGranted : Bool)
  | unregisteredPeer
deriving DecidableEq, Repr

/-- The vote decision of `handle_vote_request` taken after the optional
step-down: the inner `if self.term == term && self.can_grant_vote(..) &&
self.log_is_behind_or_eq(..)`. -/
def Cluster.voteDecision (c : Cluster) (peerId term : Nat)
    (last : RaftId) : Cluster × VoteResponse :=
  if c.term = term ∧ c.canGrantVote peerId ∧
      c.logIsBehindOrEq last.term last.index then
    (c.voteFor peerId, .vote c.term true)
  else
    (c, .vote c.term false)

/-- `handle_vote_request`, returning the updated node and the reply sent
on the oneshot channel. -/
def Cluster.handleVoteRequest (c : Cluster) (peerId term : Nat)
    (last : RaftId) : Cluster × VoteResponse :=
  if c.isKnownPeer peerId then
    (if c.term < term then c.stepDown term else c).voteDecision peerId
      term last
  else
    (c, .unregisteredPeer)

/-- A concrete node used to exercise `handle_vote_request`. -/
def c4Node : Cluster :=
  { term := 5, lastLog := { term := 5, index := 3 }, state := .wait,
    peers := [1] }

/-- A second concrete node, with a term lower than the candidate's. -/
def c4NodeLow : Cluster :=
  { term := 3, lastLog := { term := 2, index := 9 }, state := .leader,
    peers := [1] }

/-! ## Change-log collapse — `components/store/src/raft.rs`

`PendingChanges::deserialize` merges one serialized change record into
the accumulated `(inserts, updates, deletes)` bitmaps.  The LEB128 walk
of the source decodes exactly three id lists; the embedding receives
them already decoded as a `ChangeListEntry` and transcribes the collapse
logic verbatim.  Roaring bitmaps of `u32` document ids are modelled as
`Finset ℕ`. -/

/-- A JMAP id is a `u64` composed of a 32-bit prefix (e.g. a thread id)
and a 32-bit document id. -/
abbrev JMAPId := Nat

/-- Modelled from the spec: `JMAPIdPrefix::get_document_id` extracts the
low 32 bits of a JMAP id. -/
def JMAPId.getDocumentId (id : JMAPId) : Nat := id % 2 ^ 32

/-- Modelled from the spec: `JMAPIdPrefix::get_prefix_id` extracts the
high 32 bits of a JMAP id. -/
def JMAPId.getPrefixId (id : JMAPId) : Nat := id / 2 ^ 32

structure ChangeListEntry where
  inserts : List JMAPId := []
  updates : List JMAPId := []
  deletes : List JMAPId := []
deriving DecidableEq, Repr

/-- A roaring bitmap of document ids, modelled as a duplicate-free list:
membership, idempotent insertion and removal are all the collapse code
uses. -/
def bmInsert (s : List ℕ) (d : ℕ) : List ℕ :=
  if d ∈ s then s else s ++ [d]

structure PendingChanges where
  inserts : List ℕ
  updates : List ℕ
  deletes : List ℕ
  changes : List ℕ
deriving DecidableEq, Repr

/-- `PendingChanges::new` (the account and collection tags carry no data
used by the collapse and are omitted). -/
def PendingChanges.mk0 : PendingChanges := ⟨[], [], [], []⟩

/-- `PendingChanges::deserialize` on a decoded entry. -/
def PendingChanges.deserializeEntry (s0 : PendingChanges) (changeId : Nat)
    (e : ChangeListEntry) : PendingChanges :=
  let s1 := e.updates.foldl (fun acc updatedId =>
    let documentId := updatedId.getDocumentId
    if documentId ∈ acc.inserts then acc
    else { acc with updates := bmInsert acc.updates documentId }) s0
  let p := e.deletes.foldl
    (fun (p : List JMAPId × PendingChanges) deletedId =>
      let insertedIds := p.1
      let acc := p.2
      let documentId := deletedId.getDocumentId
      let prefixId := deletedId.getPrefixId
      match insertedIds.findIdx? (fun insertedId =>
          insertedId.getDocumentId == documentId &&
            insertedId.getPrefixId != prefixId) with
      | some pos =>
        -- There was a prefix change, count this change as an update.
        (insertedIds.eraseIdx pos,
          if documentId ∈ acc.inserts then acc
          else { acc with updates := bmInsert acc.updates documentId })
      | none =>
        -- This change is an actual deletion.
        (insertedIds,
          let acc :=
            if documentId ∈ acc.inserts then
              { acc with inserts := acc.inserts.erase documentId }
            else
              { acc with deletes := bmInsert acc.deletes documentId }
          { acc with updates := acc.updates.erase documentId }))
    (e.inserts, s1)
  let s2 := p.1.foldl (fun acc insertedId =>
    let documentId := insertedId.getDocumentId
    -- IDs can be reused.
    { acc with inserts := bmInsert acc.inserts documentId,
               deletes := acc.deletes.erase documentId }) p.2
  { s2 with changes := bmInsert s2.changes changeId }

/-- Merging a sequence of decoded change records, as
`get_pending_changes` does record by record in ascending change-id
order. -/
def PendingChanges.mergeEntries
    (entries : List (Nat × ChangeListEntry)) : PendingChanges :=
  entries.foldl (fun s e => s.deserializeEntry e.1 e.2) PendingChanges.mk0

/-! ## JMAP changes — `components/jmap/src/jmap_store/changes.rs`

`JMAPChanges::changes` resolves the client state token into a change-log
query, truncates to the page limit, splits the collapsed change items
into `created` / `updated` / `destroyed` and mints the next state token.
The store-side change-log reader (`JMAPStore::get_changes`, not among the
sampled sources) is modelled from the spec, §4.6: query modes `All`,
`Since(change_id)` (exclusive) and `RangeInclusive(from, to)`; a query
other than `All` that matches no record reports the state as unknown; the
merge of the matched records collapses inserts, updates and deletes with
the same rules as `PendingChanges::deserialize` above. -/

inductive Change where
  | insert (id : JMAPId)
  | update (id : JMAPId)
  | delete (id : JMAPId)
  | childUpdate (id : JMAPId)
deriving DecidableEq, Repr

/-- `JMAPState`, modelled from the spec (§3, state token). -/
inductive JMAPState where
  | initial
  | exact (changeId : Nat)
  | intermediate (fromId toId itemsSent : Nat)
deriving DecidableEq, Repr

/-- One persisted change record (`log_change` entry) of an
`(account, collection)` log, already decoded. -/
structure LogRecord where
  changeId : Nat
  inserts : List JMAPId := []
  updates : List JMAPId := []
  childUpdates : List JMAPId := []
  deletes : List JMAPId := []
deriving DecidableEq, Repr

/-- The change log of one `(account, collection)`, in ascending
change-id order. -/
abbrev ChangeLogStore := List LogRecord

inductive Query where
  | all
  | since (changeId : Nat)
  | rangeInclusive (fromId toId : Nat)
deriving DecidableEq, Repr

structure ChangeLog where
  changes : List Change
  fromChangeId : Nat
  toChangeId : Nat
deriving DecidableEq, Repr

def Change.isInsertOf (d : Nat) : Change → Bool
  | .insert i => i.getDocumentId == d
  | _ => false

def Change.isUpdateOf (d : Nat) : Change → Bool
  | .update i => i.getDocumentId == d
  | _ => false

def Change.isDeleteOf (d : Nat) : Change → Bool
  | .delete i => i.getDocumentId == d
  | _ => false

def Change.isChildUpdateOf (d : Nat) : Change → Bool
  | .childUpdate i => i.getDocumentId == d
  | _ => false

/-- Modelled from the spec: the store's change-log merge
(`ChangeLog::deserialize`, not among the sampled sources) folds one
record into the accumulated ordered change list, collapsing by the same
rules as `PendingChanges::deserialize`: an update of a freshly inserted
document stays an insert; a delete matching an insert of the same
document id with a different prefix inside the record becomes an update;
a delete cancels an earlier insert of the document and drops its
updates; surviving inserts allow id reuse by dropping earlier deletes.
Child updates have no collapse rule in the spec and are appended
idempotently. -/
def ChangeLog.applyRecord (cs0 : List Change) (rec : LogRecord) :
    List Change :=
  let cs1 := rec.updates.foldl (fun cs updatedId =>
    let d := updatedId.getDocumentId
    if cs.any (fun c => c.isInsertOf d || c.isUpdateOf d) then cs
    else cs ++ [.update updatedId]) cs0
  let cs2 := rec.childUpdates.foldl (fun cs childId =>
    let d := childId.getDocumentId
    if cs.any (fun c => c.isChildUpdateOf d) then cs
    else cs ++ [.childUpdate childId]) cs1
  let p := rec.deletes.foldl
    (fun (p : List JMAPId × List Change) deletedId =>
      let insertedIds := p.1
      let cs := p.2
      let d := deletedId.getDocumentId
      let pr := deletedId.getPrefixId
      match insertedIds.findIdx? (fun insertedId =>
          insertedId.getDocumentId == d &&
            insertedId.getPrefixId != pr) with
      | some pos =>
        (insertedIds.eraseIdx pos,
          if cs.any (fun c => c.isInsertOf d) then cs
          else cs ++ [.update deletedId])
      | none =>
        (insertedIds,
          let cs :=
            if cs.any (fun c => c.isInsertOf d) then
              cs.filter (fun c => !c.isInsertOf d)
            else
              cs ++ [.delete deletedId]
          cs.filter (fun c => !c.isUpdateOf d)))
    (rec.inserts, cs2)
  p.1.foldl (fun cs insertedId =>
    let d := insertedId.getDocumentId
    cs.filter (fun c => !c.isDeleteOf d) ++ [.insert insertedId]) p.2

/-- Modelled from the spec: collapse of a run of matched records. -/
def ChangeLog.collapse (recs : List LogRecord) : List Change :=
  recs.foldl ChangeLog.applyRecord []

/-- The records a query matches: `All` walks the whole log, `Since` is
exclusive, `RangeInclusive` includes both bounds. -/
def queryFilter (store : ChangeLogStore) : Query → List LogRecord
  | .all => store
  | .since s => store.filter (fun r => s < r.changeId)
  | .rangeInclusive f t =>
      store.filter (fun r => f ≤ r.changeId ∧ r.changeId ≤ t)

/-- Modelled from the spec: `JMAPStore::get_changes`.  `from_change_id` /
`to_change_id` are the first and last matched record ids — the bounds a
later `RangeInclusive` query of an `Intermediate` token replays.  A query
other than `All` matching no record reports the state as unknown. -/
def getChanges (store : ChangeLogStore) (q : Query) : Option ChangeLog :=
  match queryFilter store q with
  | [] =>
    match q with
    | .all => some ⟨[], 0, 0⟩
    | _ => none
  | r :: rest =>
    some ⟨ChangeLog.collapse (r :: rest), r.changeId,
      ((r :: rest).getLast (by simp)).changeId⟩

structure StoreConfig where
  changesMaxResults : Nat
deriving DecidableEq, Repr

structure ChangesRequest where
  accountId : Nat
  sinceState : JMAPState
  maxChanges : Option Nat
deriving DecidableEq, Repr

structure ChangesResponse where
  accountId : Nat
  totalChanges : Nat
  hasChildrenChanges : Bool
  hasMoreChanges : Bool
  oldState : JMAPState
  newState : JMAPState
  created : List JMAPId
  updated : List JMAPId
  destroyed : List JMAPId
deriving DecidableEq, Repr

inductive StoreError where
  | invalidArguments (msg : String)
deriving DecidableEq, Repr

deriving instance DecidableEq for Except

/-- The error string of `changes.rs` for an unknown state token. -/
def stateNotFoundMsg : String :=
  "The specified stateId does could not be found."

/-- Modelled from the spec: `ChangesResponse::empty` — the empty response
with `new_state = Initial` returned for an `Initial` token over an empty
log. -/
def ChangesResponse.emptyResp (accountId : Nat) : ChangesResponse :=
  { accountId, totalChanges := 0, hasChildrenChanges := false,
    hasMoreChanges := false, oldState := .initial, newState := .initial,
    created := [], updated := [], destroyed := [] }

/-- The item an `Insert` record contributes to `created`. -/
def Change.insertId : Change → Option JMAPId
  | .insert i => some i
  | _ => none

/-- The item an `Update` or `ChildUpdate` record contributes to
`updated`. -/
def Change.updatedId : Change → Option JMAPId
  | .update i => some i
  | .childUpdate i => some i
  | _ => none

/-- The item a `Delete` record contributes to `destroyed`. -/
def Change.deletedId : Change → Option JMAPId
  | .delete i => some i
  | _ => none

/-- Whether a record is a plain `Update` (sets `items_changed`). -/
def Change.isUpdate : Change → Bool
  | .update _ => true
  | _ => false

/-- The split loop of `changes` (lines 150–167): push each change item
into `created` / `updated` / `destroyed`, remembering in `items_changed`
whether a plain `Update` was seen. -/
def splitChanges (cs : List Change) :
    List JMAPId × List JMAPId × List JMAPId × Bool :=
  cs.foldl (fun acc c =>
    match c with
    | .insert item => (acc.1 ++ [item], acc.2.1, acc.2.2.1, acc.2.2.2)
    | .update item => (acc.1, acc.2.1 ++ [item], acc.2.2.1, true)
    | .delete item => (acc.1, acc.2.1, acc.2.2.1 ++ [item], acc.2.2.2)
    | .childUpdate item => (acc.1, acc.2.1 ++ [item], acc.2.2.1, acc.2.2.2))
    ([], [], [], false)

/-- Lines 150–189 of `changes`: build the `ChangesResponse` from the
(already truncated) changelog. -/
def finishResponse (accountId : Nat) (oldState : JMAPState)
    (itemsSent maxChanges : Nat) (hasMoreChanges : Bool)
    (changelog : ChangeLog) : ChangesResponse :=
  let s := splitChanges changelog.changes
  { accountId
    totalChanges := changelog.changes.length
    hasChildrenChanges := !s.2.1.isEmpty && !s.2.2.2
    hasMoreChanges
    oldState
    newState :=
      if hasMoreChanges then
        .intermediate changelog.fromChangeId changelog.toChangeId
          (itemsSent + maxChanges)
      else
        .exact changelog.toChangeId
    created := s.1
    updated := s.2.1
    destroyed := s.2.2.1 }

/-- Lines 141–189 of `changes`: apply the `max_changes` truncation
(dropping the oldest items) and build the response. -/
def changesFinish (accountId : Nat) (oldState : JMAPState)
    (itemsSent maxChanges : Nat) (changelog : ChangeLog) :
    ChangesResponse :=
  let n := changelog.changes.length
  if 0 < maxChanges ∧ maxChanges < n then
    finishResponse accountId oldState itemsSent maxChanges true
      { changelog with changes := changelog.changes.drop (n - maxChanges) }
  else
    finishResponse accountId oldState itemsSent maxChanges false changelog

/-- Lines 72–79 of `changes`: the client-requested `max_changes`
(`0` when absent) clamped by the configured `changes_max_results` when
the latter is positive and strictly smaller. -/
def effectiveMax (cfg : StoreConfig) (requested : Option Nat) : Nat :=
  let maxRequested := requested.getD 0
  if 0 < cfg.changesMaxResults ∧ cfg.changesMaxResults < maxRequested
  then cfg.changesMaxResults
  else maxRequested

/-- `JMAPChanges::changes`. -/
def jmapChanges (cfg : StoreConfig) (store : ChangeLogStore)
    (request : ChangesRequest) : Except StoreError ChangesResponse :=
  let maxChanges := effectiveMax cfg request.maxChanges
  match request.sinceState with
  | .initial =>
    -- `Query::All` always returns a changelog, so `.unwrap()` is total.
    let changelog := (getChanges store .all).getD ⟨[], 0, 0⟩
    if changelog.changes.isEmpty ∧ changelog.fromChangeId = 0 then
      .ok (ChangesResponse.emptyResp request.accountId)
    else
      .ok (changesFinish request.accountId request.sinceState 0 maxChanges
        changelog)
  | .exact changeId =>
    match getChanges store (.since changeId) with
    | none => .error (.invalidArguments stateNotFoundMsg)
    | some changelog =>
      .ok (changesFinish request.accountId request.sinceState 0 maxChanges
        changelog)
  | .intermediate fromId toId itemsSent =>
    match getChanges store (.rangeInclusive fromId toId) with
    | none => .error (.invalidArguments stateNotFoundMsg)
    | some changelog =>
      if changelog.changes.length ≤ itemsSent then
        match getChanges store (.since toId) with
        | none => .error (.invalidArguments stateNotFoundMsg)
        | some changelog2 =>
          .ok (changesFinish request.accountId request.sinceState 0
            maxChanges changelog2)
      else
        .ok (changesFinish request.accountId request.sinceState itemsSent
          maxChanges
          { changelog with
            changes := changelog.changes.take
              (changelog.changes.length - itemsSent) })

/-- Repeatedly calling `changes`, feeding the returned `new_state` back
in while `has_more_changes` is set, collecting the pages.  `fuel` bounds
the recursion. -/
def iteratePages (cfg : StoreConfig) (store : ChangeLogStore)
    (accountId maxChanges : Nat) :
    JMAPState → Nat → Except StoreError (Option (List ChangesResponse))
  | _, 0 => .ok none
  | st, fuel + 1 =>
    match jmapChanges cfg store
        { accountId, sinceState := st, maxChanges := some maxChanges } with
    | .error e => .error e
    | .ok resp =>
      if resp.hasMoreChanges then
        match iteratePages cfg store accountId maxChanges resp.newState
            fuel with
        | .error e => .error e
        | .ok none => .ok none
        | .ok (some pages) => .ok (some (resp :: pages))
      else
        .ok (some [resp])

/-- A two-record change log used to exercise the pagination loop. -/
def c2wStore : ChangeLogStore :=
  [{ changeId := 0, inserts := [1] },
   { changeId := 1, inserts := [2], updates := [1] }]

/-- A three-record change log used to exercise `Intermediate` tokens. -/
def c5wStore : ChangeLogStore :=
  [{ changeId := 0, inserts := [1] },
   { changeId := 1, inserts := [2] },
   { changeId := 2, inserts := [3] }]

/-- A change record carrying an insert and a child update of another
document in the same write batch (a mailbox created while a message is
added to a sibling mailbox). -/
def c6Store : ChangeLogStore :=
  [{ changeId := 0, inserts := [1], childUpdates := [2] }]

/-- The S2 scenario: insert documents 4–7, then delete all four. -/
def c1S2Store : ChangeLogStore :=
  [{ changeId := 0, inserts := [4, 5, 6, 7] },
   { changeId := 1, deletes := [4, 5, 6, 7] }]

/-! ## PushSubscription/set — `components/jmap/src/push_subscription/set.rs`

The `create` closure of `push_subscription_set`.  The ORM (`TinyORM`),
the set-helper plumbing and `insert_validate` are outside the sampled
sources; the property map is modelled as a function, `insert_validate`
as an oracle, and the `SetError` shapes from the spec (§7).  The
`thread_rng` alphanumeric sampler is modelled as an oracle stream of
indexes into the 62-character alphanumeric alphabet. -/

/-- `EXPIRES_MAX`: seven days in seconds. -/
def EXPIRES_MAX : Int := 7 * 24 * 3600

/-- `MAX_SUBSCRIPTIONS`. -/
def MAX_SUBSCRIPTIONS : Nat := 100

/-- `VERIFICATION_CODE_LEN`. -/
def VERIFICATION_CODE_LEN : Nat := 32

inductive PSProperty where
  | deviceClientId
  | url
  | keys
  | expires
  | types
  | verificationCode
  | verificationCode_
deriving DecidableEq, Repr

/-- The schema `Value` shapes the create path distinguishes.  A
`DateTime` is represented by its Unix timestamp (the code immediately
converts through `timestamp()` / `from_timestamp`). -/
inductive PSValue where
  | text (value : List Char)
  | dateTime (value : Int)
  | keysV
  | typesV
  | null
deriving DecidableEq, Repr

inductive SetErrorType where
  | forbidden
  | invalidProperties
deriving DecidableEq, Repr

/-- Modelled from the spec: `SetError { type, properties?, description? }`. -/
structure SetError where
  type : SetErrorType
  property : Option PSProperty
  description : String
deriving DecidableEq, Repr

/-- `SetError::invalid_property`. -/
def SetError.invalidProperty (p : PSProperty) (d : String) : SetError :=
  ⟨.invalidProperties, some p, d⟩

inductive ORMValue where
  | object (v : PSValue)
  | null
deriving DecidableEq, Repr

/-- `TinyORM` property map, modelled as a function. -/
def PSFields := PSProperty → Option ORMValue

def PSFields.empty : PSFields := fun _ => none

/-- `TinyORM::set`. -/
def PSFields.set (fields : PSFields) (p : PSProperty) (v : ORMValue) :
    PSFields :=
  fun q => if q = p then some v else fields q

/-- UTF-8 width of one character (Rust strings are UTF-8, `str::len`
counts bytes). -/
def charUtf8Size (c : Char) : Nat :=
  if c.toNat < 0x80 then 1
  else if c.toNat < 0x800 then 2
  else if c.toNat < 0x10000 then 3
  else 4

/-- Rust `str::len`: the UTF-8 byte count. -/
def utf8Length (s : List Char) : Nat := (s.map charUtf8Size).sum

/-- The `Alphanumeric` distribution alphabet of the `rand` crate. -/
def alphanumericChars : List Char :=
  ("ABCDEFGHIJKLMNOPQRSTUVWXYZ" ++ "abcdefghijklmnopqrstuvwxyz" ++
    "0123456789").data

/-- `thread_rng().sample_iter(Alphanumeric).take(n).map(char::from)`,
with the random source abstracted as a stream of indexes. -/
def sampleAlphanumeric (rng : Nat → Fin 62) (n : Nat) : List Char :=
  (List.range n).map fun i => alphanumericChars.getD ((rng i)).val 'A'

/-- One iteration of the property loop of the `create` closure: either
update `(fields, expires)` or reject the property.  The match arms are
transcribed in source order; a `Url` text failing its guard falls
through to the catch-all arm, as in Rust. -/
def psCreateStep (acc : PSFields × Option Int) (pv : PSProperty × PSValue) :
    Except SetError (PSFields × Option Int) :=
  let fields := acc.1
  let expires := acc.2
  match pv.1, pv.2 with
  | .deviceClientId, .text s =>
    .ok (fields.set .deviceClientId (.object (.text s)), expires)
  | .url, .text s =>
    if ("https://".data).isPrefixOf s ∧ utf8Length s < 512 then
      .ok (fields.set .url (.object (.text s)), expires)
    else
      .error (SetError.invalidProperty .url "Field could not be set.")
  | .keys, .keysV => .ok (fields.set .keys (.object .keysV), expires)
  | .expires, .dateTime v => .ok (fields, some v)
  | .types, .typesV => .ok (fields.set .types (.object .typesV), expires)
  | .keys, .null => .ok (fields.set .keys .null, expires)
  | .expires, .null => .ok (fields.set .expires .null, expires)
  | .types, .null => .ok (fields.set .types .null, expires)
  | .verificationCode, .null =>
    .ok (fields.set .verificationCode .null, expires)
  | p, _ => .error (SetError.invalidProperty p "Field could not be set.")

/-- The `create` closure of `push_subscription_set`:
`documentIds` is `helper.document_ids.len()`, `currentTime` is
`Utc::now().timestamp()`, `rng` the random source and `validate` the
`insert_validate` oracle (modelled from the spec, §4.4). -/
def pushSubscriptionCreate (documentIds : Nat) (currentTime : Int)
    (rng : Nat → Fin 62) (validate : PSFields → Option SetError)
    (item : List (PSProperty × PSValue)) : Except SetError PSFields := do
  if documentIds > MAX_SUBSCRIPTIONS then
    throw (SetError.mk .forbidden none
      "There are too many subscriptions, please delete some before adding a new one.")
  let (fields, expires) ←
    item.foldlM psCreateStep (PSFields.empty, (none : Option Int))
  let expiresV := expires.getD (currentTime + EXPIRES_MAX)
  let fields := fields.set .expires (.object (.dateTime
    (if expiresV > currentTime ∧ expiresV - currentTime > EXPIRES_MAX
     then currentTime + EXPIRES_MAX
     else expiresV)))
  let fields := fields.set .verificationCode_ (.object (.text
    (sampleAlphanumeric rng VERIFICATION_CODE_LEN)))
  match validate fields with
  | some e => throw e
  | none => return fields

/-! ## Write pipeline — `components/store/src/update.rs`

`update_documents` accumulates every mutation of a batch of write
actions into one `Vec<WriteOperation>` and submits it through a single
`db.write` at the very end.  Keys are kept symbolic (one constructor per
`serialize_*` encoder, which produce disjoint byte prefixes); collection
tags, fields and term ids are `Nat`.  The collaborators that are not
among the sampled sources are oracles: `get::<BlobEntries>` (a read),
`get_terms` (pure tokenizing/stemming, spec §4.7), `store_blob` (the
content-addressed blob store, spec §4.9 — its payload write is outside
the KV families and may persist on failure, recovered by the purger),
`assign_change_id` (the in-memory ChangeId counter, spec §3) and the
atomic `db.write` itself, which applies either all of its operations or
none.  `LogWriter::serialize` is modelled from the spec (§4.5 steps
6–7): one `log_change` entry per touched collection plus one `log_raft`
entry. -/

inductive DbError where
  | internal (msg : String)
deriving DecidableEq, Repr

/-- The `BM_USED_IDS` marker of `serialize_bm_internal`. -/
def BM_USED_IDS : Nat := 0

/-- The `BM_TOMBSTONED_IDS` marker of `serialize_bm_internal`. -/
def BM_TOMBSTONED_IDS : Nat := 1

inductive WKey where
  | bmInternal (account collection marker : Nat)
  | bmText (account collection field : Nat) (text : List Char)
  | bmTerm (account collection field termId : Nat) (isExact : Bool)
  | bmTag (account collection field tag : Nat)
  | stored (account collection docId field : Nat)
  | indexKey (account collection docId field : Nat)
      (valueBytes : List Nat)
  | acd (account collection docId : Nat)
  | blobKey (account collection docId : Nat)
  | blobRef (hash : Nat)
  | logChange (account collection changeId : Nat)
  | logRaft (term index : Nat)
deriving DecidableEq, Repr

inductive LogAction where
  | insert (id : JMAPId)
  | update (id : JMAPId)
  | delete (id : JMAPId)
  | childUpdate (id : JMAPId)
  | move (oldId newId : JMAPId)
deriving DecidableEq, Repr

inductive WVal where
  | bytes (b : List Nat)
  | int64 (i : Int)
  | termIndex (ti : List (Nat × Nat × List (Nat × Nat)))
  | blobEntries (es : List Nat)
  | setClearBits (bits : List (Nat × Bool))
  | changeEntry (action : LogAction)
  | raftEntry (account : Nat) (changes : List (Nat × Nat))
  | emptyVal
deriving DecidableEq, Repr

inductive WColumnFamily where
  | bitmaps
  | values
  | indexes
  | logs
deriving DecidableEq, Repr

inductive WriteOperation where
  | setOp (cf : WColumnFamily) (key : WKey) (value : WVal)
  | mergeOp (cf : WColumnFamily) (key : WKey) (value : WVal)
  | deleteOp (cf : WColumnFamily) (key : WKey)
deriving DecidableEq, Repr

inductive FieldOptions where
  | optNone
  | store
  | sort
  | storeAndSort
  | storeAsBlob (blobIndex : Nat)
  | clear
deriving DecidableEq, Repr

/-- The `Text` payload of a text field (language 0 is `Unknown`). -/
inductive TextValue where
  | default (text : List Char)
  | keyword (text : List Char)
  | tokenized (text : List Char)
  | full (text : List Char) (language : Nat)
deriving DecidableEq, Repr

inductive UpdateField where
  | text (field : Nat) (options : FieldOptions) (value : TextValue)
  | tag (field : Nat) (isClear : Bool) (value : Nat)
  | binary (field : Nat) (options : FieldOptions) (value : List Nat)
  | integer (field : Nat) (options : FieldOptions) (value : Nat)
  | longInteger (field : Nat) (options : FieldOptions) (value : Nat)
  | float (field : Nat) (options : FieldOptions) (value : List Nat)
deriving DecidableEq, Repr

inductive WriteAction where
  | insert (docId : Nat)
  | update (docId : Nat)
  | delete (docId : Nat)
deriving DecidableEq, Repr

structure WriteBatch where
  collection : Nat
  action : WriteAction
  fields : List UpdateField
  logId : Option Nat
  logAction : LogAction
  defaultLanguage : Nat
deriving DecidableEq, Repr

structure UpdateOracles where
  getBlobEntries : Nat → Nat → Nat → Except DbError (Option (List Nat))
  getTerms : List Char → Nat → Except DbError (List (Nat × Nat))
  storeBlob : List Nat → Except DbError Nat
  assignChangeId : Nat → Nat → Except DbError Nat
  tokenize : List Char → List (List Char)
  dbWrite : List WriteOperation → Except DbError Unit

/-- `HashMap<u32, bool>::insert` on a document/set-clear list. -/
def docListSet (l : List (Nat × Bool)) (d : Nat) (v : Bool) :
    List (Nat × Bool) :=
  if l.any (fun p => p.1 == d) then
    l.map (fun p => if p.1 == d then (d, v) else p)
  else
    l ++ [(d, v)]

/-- `bitmap_list.entry(key).or_insert_with(HashMap::new)
.insert(document_id, v)`.  (The Rust map iterates in hash order; the
model fixes insertion order, which only affects the ordering of the
final merge operations inside the single batch.) -/
def bmListInsert (bl : List (WKey × List (Nat × Bool))) (key : WKey)
    (d : Nat) (v : Bool) : List (WKey × List (Nat × Bool)) :=
  if bl.any (fun p => p.1 == key) then
    bl.map (fun p => if p.1 == key then (p.1, docListSet p.2 d v) else p)
  else
    bl ++ [(key, docListSet [] d v)]

/-- Insertion into a list sorted by blob index (`sort_unstable_by_key`);
structural so that concrete runs evaluate in the kernel. -/
def insertByBlobIndex (x : Nat × List Nat) :
    List (Nat × List Nat) → List (Nat × List Nat)
  | [] => [x]
  | y :: ys =>
    if x.1 ≤ y.1 then x :: y :: ys else y :: insertByBlobIndex x ys

def sortByBlobIndex (l : List (Nat × List Nat)) :
    List (Nat × List Nat) :=
  l.foldl (fun acc x => insertByBlobIndex x acc) []

/-- Text bytes (`str::as_bytes`). -/
def textBytes (s : List Char) : List Nat := s.map Char.toNat

/-- State threaded through the per-field loop: the write batch, the
bitmap delta map, the `TermIndexBuilder` items and the blob fields. -/
structure FieldLoopState where
  wb : List WriteOperation
  bl : List (WKey × List (Nat × Bool))
  termIndexB : List (Nat × Nat × List (Nat × Nat))
  blobFields : List (Nat × List Nat)
deriving Repr

/-- The `(is_stored, is_sorted, is_clear, blob_index)` table of the
`Text` arm. -/
def textOptions (o : FieldOptions) : Bool × Bool × Bool × Option Nat :=
  match o with
  | .optNone => (false, false, false, none)
  | .store => (true, false, false, none)
  | .sort => (false, true, false, none)
  | .storeAndSort => (true, true, false, none)
  | .storeAsBlob bi => (false, false, false, some bi)
  | .clear => (false, false, true, none)

def FieldOptions.isStored : FieldOptions → Bool
  | .store | .storeAndSort => true
  | _ => false

def FieldOptions.isSorted : FieldOptions → Bool
  | .sort | .storeAndSort => true
  | _ => false

def FieldOptions.isClear : FieldOptions → Bool
  | .clear => true
  | _ => false

/-- The store/sort/clear tail shared by the numeric field arms. -/
def numericFieldOps (account collection docId field : Nat)
    (o : FieldOptions) (storedVal : WVal) (beBytes : List Nat)
    (st : FieldLoopState) : FieldLoopState :=
  if ¬o.isClear then
    let st :=
      if o.isStored then
        { st with wb := (st.wb ++ [.setOp .values
          (.stored account collection docId field) storedVal]) }
      else st
    if o.isSorted then
      { st with wb := (st.wb ++ [.setOp .indexes
        (.indexKey account collection docId field beBytes) .emptyVal]) }
    else st
  else
    { st with wb := (st.wb ++
      [.deleteOp .values (.stored account collection docId field),
       .deleteOp .indexes
         (.indexKey account collection docId field beBytes)]) }

/-- One iteration of the `for field in batch.fields` loop. -/
def processField (o : UpdateOracles) (account collection docId
    defaultLanguage : Nat) (st : FieldLoopState) (field : UpdateField) :
    Except DbError FieldLoopState := do
  match field with
  | .text f opts value =>
    let os := textOptions opts
    let isStored := os.1
    let isSorted := os.2.1
    let isClear := os.2.2.1
    let blobIndex := os.2.2.2
    let (st, text) ←
      match value with
      | .default text => pure (st, text)
      | .keyword text =>
        pure ({ st with bl := (bmListInsert st.bl
          (.bmText account collection f text) docId (!isClear)) }, text)
      | .tokenized text =>
        pure ({ st with bl := ((o.tokenize text).foldl
          (fun bl token => bmListInsert bl
            (.bmText account collection f token) docId (!isClear))
          st.bl) }, text)
      | .full text language => do
        let terms ← o.getTerms text
          (if language == 0 then defaultLanguage else language)
        if terms.isEmpty then
          pure (st, text)
        else
          let bl := terms.foldl (fun bl term =>
            let bl := bmListInsert bl
              (.bmTerm account collection f term.1 true) docId (!isClear)
            if term.2 != term.1 then
              bmListInsert bl
                (.bmTerm account collection f term.2 false) docId
                (!isClear)
            else bl) st.bl
          let ti := st.termIndexB ++ [(f, blobIndex.getD 0, terms)]
          pure ({ st with bl := bl, termIndexB := ti }, text)
    match blobIndex with
    | some bi =>
      return { st with blobFields := (st.blobFields ++
        [(bi, textBytes text)]) }
    | none =>
      if ¬isClear then
        let st :=
          if isStored then
            { st with wb := (st.wb ++ [.setOp .values
              (.stored account collection docId f)
              (.bytes (textBytes text))]) }
          else st
        if isSorted then
          return { st with wb := (st.wb ++ [.setOp .indexes
            (.indexKey account collection docId f (textBytes text))
            .emptyVal]) }
        else
          return st
      else
        return { st with wb := (st.wb ++
          [.deleteOp .values (.stored account collection docId f),
           .deleteOp .indexes
             (.indexKey account collection docId f (textBytes text))]) }
  | .tag f isClear value =>
    return { st with bl := (bmListInsert st.bl
      (.bmTag account collection f value) docId (!isClear)) }
  | .binary f opts value =>
    match opts with
    | .storeAsBlob bi =>
      return { st with blobFields := (st.blobFields ++ [(bi, value)]) }
    | _ =>
      return { st with wb := (st.wb ++ [.setOp .values
        (.stored account collection docId f) (.bytes value)]) }
  | .integer f opts value =>
    return numericFieldOps account collection docId f opts
      (.int64 value) [value] st
  | .longInteger f opts value =>
    return numericFieldOps account collection docId f opts
      (.int64 value) [value] st
  | .float f opts value =>
    return numericFieldOps account collection docId f opts
      (.bytes value) value st

/-- One iteration of the `for batch in batches` loop, returning the
updated `(write_batch, bitmap_list, change_log)` state. -/
def processBatch (o : UpdateOracles) (account : Nat)
    (addChanges : Bool)
    (st : List WriteOperation × List (WKey × List (Nat × Bool)) ×
      List (Nat × Nat × LogAction)) (batch : WriteBatch) :
    Except DbError (List WriteOperation ×
      List (WKey × List (Nat × Bool)) ×
      List (Nat × Nat × LogAction)) := do
  let (wb, bl, changeLog) := st
  let (wb, bl, updateId) ←
    match batch.action with
    | .insert docId =>
      pure (wb, bmListInsert bl
        (.bmInternal account batch.collection BM_USED_IDS) docId true,
        some docId)
    | .update docId => pure (wb, bl, some docId)
    | .delete docId => do
      let blob ← o.getBlobEntries account batch.collection docId
      let wb :=
        match blob with
        | some items => wb ++ items.map (fun key =>
            WriteOperation.mergeOp .values (.blobRef key) (.int64 (-1)))
        | none => wb
      pure (wb, bmListInsert bl
        (.bmInternal account batch.collection BM_TOMBSTONED_IDS) docId
        true, none)
  let (wb, bl) ←
    match updateId with
    | none => pure (wb, bl)
    | some docId => do
      let st ← batch.fields.foldlM
        (processField o account batch.collection docId
          batch.defaultLanguage)
        { wb, bl, termIndexB := [], blobFields := [] }
      let wb := st.wb
      let bl := st.bl
      -- Compress and store the term index
      let wb :=
        if ¬st.termIndexB.isEmpty then
          wb ++ [.setOp .values (.acd account batch.collection docId)
            (.termIndex st.termIndexB)]
        else wb
      -- Store external blobs
      if ¬st.blobFields.isEmpty then
        let sorted := sortByBlobIndex st.blobFields
        let (wb, entries) ← sorted.foldlM
          (fun (p : List WriteOperation × List Nat) bf => do
            let blobEntry ← o.storeBlob bf.2
            pure (p.1 ++ [WriteOperation.mergeOp .values
              (.blobRef blobEntry) (.int64 1)], p.2 ++ [blobEntry]))
          (wb, [])
        pure (wb ++ [.setOp .values
          (.blobKey account batch.collection docId)
          (.blobEntries entries)], bl)
      else
        pure (wb, bl)
  if addChanges then
    let changeId ←
      match batch.logId with
      | some changeId => pure changeId
      | none => o.assignChangeId account batch.collection
    return (wb, bl, changeLog ++
      [(batch.collection, changeId, batch.logAction)])
  else
    return (wb, bl, changeLog)

/-- Modelled from the spec: `LogWriter::serialize` (§4.5 steps 6–7) —
append one `log_change` entry per accumulated change and a single
`log_raft` entry summarizing the per-collection change ids. -/
def logWriterSerialize (account : Nat) (raftId : RaftId)
    (changeLog : List (Nat × Nat × LogAction))
    (wb : List WriteOperation) : List WriteOperation :=
  (wb ++ changeLog.map (fun c =>
    WriteOperation.setOp .logs (.logChange account c.1 c.2.1)
      (.changeEntry c.2.2))) ++
    [.setOp .logs (.logRaft raftId.term raftId.index)
      (.raftEntry account (changeLog.map (fun c => (c.1, c.2.1))))]

/-- `RaftId::is_none`. -/
def RaftId.isNoneId (r : RaftId) : Bool :=
  r.term == u64Max && r.index == u64Max

/-- `update_documents`: accumulate all mutations, then return the
single write batch to submit. -/
def update_documents (o : UpdateOracles) (account : Nat)
    (raftId : RaftId) (batches : List WriteBatch) :
    Except DbError (List WriteOperation) := do
  let addChanges := !raftId.isNoneId
  let (wb, bl, changeLog) ← batches.foldlM
    (processBatch o account (addChanges = true)) ([], [], [])
  -- Write Raft and change log
  let wb := if addChanges then
      logWriterSerialize account raftId changeLog wb
    else wb
  -- Update bitmaps
  let wb := wb ++ bl.map (fun p =>
    WriteOperation.mergeOp .bitmaps p.1 (.setClearBits p.2))
  return wb

/-- The committed state of the KV engine: the sequence of atomic
batches applied so far. -/
abbrev KVHistory := List (List WriteOperation)

/-- Running `update_documents` against the store: the only state
mutation is the final `self.db.write(write_batch)`, which the engine
applies atomically (a failing write applies nothing). -/
def update_documents_run (o : UpdateOracles) (account : Nat)
    (raftId : RaftId) (batches : List WriteBatch) (db : KVHistory) :
    Except DbError Unit × KVHistory :=
  match update_documents o account raftId batches with
  | .error e => (.error e, db)
  | .ok ops =>
    match o.dbWrite ops with
    | .error e => (.error e, db)
    | .ok _ => (.ok (), db ++ [ops])

/-- Concrete oracles exercising every arm of the write pipeline. -/
def c3Oracles : UpdateOracles :=
  { getBlobEntries := fun _ _ _ => .ok (some [77])
    getTerms := fun _ _ => .ok [(5, 6)]
    storeBlob := fun b => .ok (b.length + 100)
    assignChangeId := fun _ _ => .ok 9
    tokenize := fun s => [s]
    dbWrite := fun _ => .ok () }

/-- A representative pair of write batches: an insert carrying a stored
and sorted text field, a full-text field, a tag, a sorted integer and a
blob, followed by a delete with a referenced blob. -/
def c3Batches : List WriteBatch :=
  [{ collection := 1
     action := .insert 3
     fields := [
       .text 0 .storeAndSort (.default "hello".data),
       .text 1 .optNone (.full "world".data 0),
       .tag 2 false 4,
       .integer 3 .sort 42,
       .binary 4 (.storeAsBlob 0) [1, 2, 3]]
     logId := some 8
     logAction := .insert 3
     defaultLanguage := 1 },
   { collection := 1
     action := .delete 5
     fields := []
     logId := none
     logAction := .delete 5
     defaultLanguage := 1 }]

/-- Oracles whose final KV write fails, exercising the rollback path. -/
def c3FailOracles : UpdateOracles :=
  { c3Oracles with dbWrite := fun _ => .error (.internal "disk full") }

/-- A non-empty starting store state for the rollback instance. -/
def c3Db : KVHistory := [[.deleteOp .values (.blobRef 0)]]

/-- The single write batch accumulated by `update_documents` for
`c3Batches` under `c3Oracles`. -/
def c3Ops : List WriteOperation :=
  [.setOp .values (.stored 2 1 3 0) (.bytes [104, 101, 108, 108, 111]),
   .setOp .indexes (.indexKey 2 1 3 0 [104, 101, 108, 108, 111])
     .emptyVal,
   .setOp .indexes (.indexKey 2 1 3 3 [42]) .emptyVal,
   .setOp .values (.acd 2 1 3) (.termIndex [(1, 0, [(5, 6)])]),
   .mergeOp .values (.blobRef 103) (.int64 1),
   .setOp .values (.blobKey 2 1 3) (.blobEntries [103]),
   .mergeOp .values (.blobRef 77) (.int64 (-1)),
   .setOp .logs (.logChange 2 1 8) (.changeEntry (.insert 3)),
   .setOp .logs (.logChange 2 1 9) (.changeEntry (.delete 5)),
   .setOp .logs (.logRaft 1 4) (.raftEntry 2 [(1, 8), (1, 9)]),
   .mergeOp .bitmaps (.bmInternal 2 1 0) (.setClearBits [(3, true)]),
   .mergeOp .bitmaps (.bmTerm 2 1 1 5 true) (.setClearBits [(3, true)]),
   .mergeOp .bitmaps (.bmTerm 2 1 1 6 false)
     (.setClearBits [(3, true)]),
   .mergeOp .bitmaps (.bmTag 2 1 2 4) (.setClearBits [(3, true)]),
   .mergeOp .bitmaps (.bmInternal 2 1 1) (.setClearBits [(5, true)])]

end JmapVerify

namespace JmapVerify

/-- C8: `JMAPDate::parse("2004-06-28T23:43:45.000Z")` yields
year 2004, month 6, day 28, hour 23, minute 43, second 45 with a
`+00:00` offset, and `Display` re-serializes it as
`"2004-06-28T23:43:45Z"`: fractional seconds are dropped and the zero
offset prints as `Z`. -/
theorem c8_jmap_date_parse_and_display :
    JMAPDate.parse "2004-06-28T23:43:45.000Z" =
      some { year := 2004, month := 6, day := 28, hour := 23,
             minute := 43, second := 45, tz_before_gmt := false,
             tz_hour := 0, tz_minute := 0 } ∧
    JMAPDate.display
      { year := 2004, month := 6, day := 28, hour := 23,
        minute := 43, second := 45, tz_before_gmt := false,
        tz_hour := 0, tz_minute := 0 } = "2004-06-28T23:43:45Z" := by
  exact ⟨rfl, rfl⟩

/-- C9: the weekday range check of `SimpleCron::parse` is applied to the
hour, not to the weekday.  A numeric weekday of 99 is accepted whenever
the hour happens to lie in 1–7 (`"0 3 99"`), while perfectly valid
weekdays are rejected whenever the hour lies outside 1–7
(`"30 10 5"`, `"0 0 1"`), with an error message that prints the hour. -/
theorem c9_cron_weekday_checks_hour :
    SimpleCron.parse "0 3 99" = .ok (.everyWeek 99 3 0) ∧
    SimpleCron.parse "30 10 5" =
      .error "parse weekday, invalid value: 10, range is 1 (Monday) to 7 (Sunday)." ∧
    SimpleCron.parse "0 0 1" =
      .error "parse weekday, invalid value: 0, range is 1 (Monday) to 7 (Sunday)." := by
  exact ⟨rfl, rfl, rfl⟩

/-- C4 counterexample: a node at term 5 in `Wait` with last log `(5, 3)`
receives a vote request from a known peer at the same term whose last log
is `(5, u64::MAX)`.  Under the claim's plain term-then-index comparison
the candidate's log is greater or equal, so the vote should be granted,
yet `handle_vote_request` refuses it: the code compares indexes after a
wrapping increment, which sends `u64::MAX` to `0`. -/
theorem c4_claim_counterexample :
    c4Node.isKnownPeer 1 = true ∧
    c4Node.term = 5 ∧ c4Node.state = .wait ∧
    (c4Node.lastLog.term < 5 ∨
      (5 = c4Node.lastLog.term ∧ c4Node.lastLog.index ≤ u64Max)) ∧
    (c4Node.handleVoteRequest 1 5 { term := 5, index := u64Max }).2 =
      .vote 5 false := by
  refine ⟨rfl, rfl, rfl, Or.inr ⟨rfl, by decide⟩, by decide⟩

/-- C4 (amended): `handle_vote_request` replies `UnregisteredPeer` exactly
for unknown peers; it grants a vote exactly when the peer is known, the
candidate's term is at least ours, the node is in `Wait` or has already
voted for the same candidate (where a strictly higher candidate term first
steps the node down to `Wait`), and the candidate's log is greater or
equal — comparing `last_log_term` plainly first and, on equal terms, the
indexes incremented by one modulo `2 ^ 64`, so that the `u64::MAX`
sentinel (empty log) orders below every real index; and on a strictly
higher term from a known peer the node adopts that term. -/
theorem c4_vote_grant_rule (c : Cluster) (peerId term : Nat)
    (last : RaftId) :
    ((c.handleVoteRequest peerId term last).2 = .unregisteredPeer ↔
      c.isKnownPeer peerId = false) ∧
    ((∃ t, (c.handleVoteRequest peerId term last).2 = .vote t true) ↔
      c.isKnownPeer peerId = true ∧ c.term ≤ term ∧
        (c.term < term ∨ c.state = .wait ∨ c.state = .votedFor peerId) ∧
        (c.lastLog.term < last.term ∨
          (last.term = c.lastLog.term ∧
            wrappingAdd1 c.lastLog.index ≤ wrappingAdd1 last.index))) ∧
    (c.isKnownPeer peerId = true → c.term < term →
      (c.handleVoteRequest peerId term last).1.term = term ∧
        ((c.handleVoteRequest peerId term last).1.state = .wait ∨
         (c.handleVoteRequest peerId term last).1.state =
           .votedFor peerId)) := by
  have hcg : ∀ d : Cluster,
      d.canGrantVote peerId ↔
        d.state = .wait ∨ d.state = .votedFor peerId := by
    intro d
    unfold Cluster.canGrantVote
    rcases d.state with _ | _ | q | _ | q <;>
      simp [NodeState.votedFor.injEq, eq_comm]
  have hvd : ∀ d : Cluster,
      ((∃ t, (d.voteDecision peerId term last).2 = .vote t true) ↔
        d.term = term ∧ d.canGrantVote peerId ∧
          d.logIsBehindOrEq last.term last.index) ∧
      (d.voteDecision peerId term last).1.term = d.term ∧
      ((d.voteDecision peerId term last).1.state = d.state ∨
        (d.voteDecision peerId term last).1.state = .votedFor peerId) ∧
      (d.voteDecision peerId term last).2 ≠ .unregisteredPeer := by
    intro d
    unfold Cluster.voteDecision
    split_ifs with h
    · refine ⟨?_, rfl, Or.inr rfl, by simp⟩
      constructor
      · rintro -
        exact h
      · rintro -
        exact ⟨d.term, rfl⟩
    · refine ⟨?_, rfl, Or.inl rfl, by simp⟩
      constructor
      · rintro ⟨t, ht⟩
        simp at ht
      · intro hcond
        exact absurd hcond h
  unfold Cluster.handleVoteRequest
  by_cases hk : c.isKnownPeer peerId
  · rw [if_pos hk]
    by_cases hlt : c.term < term
    · rw [if_pos hlt]
      obtain ⟨hiff, hterm, hstate, hne⟩ :=
        hvd (c.stepDown term)
      refine ⟨by simp [hne, hk], ?_, ?_⟩
      · rw [hiff]
        constructor
        · rintro ⟨-, -, hlog⟩
          exact ⟨hk, le_of_lt hlt, Or.inl hlt, hlog⟩
        · rintro ⟨-, -, -, hlog⟩
          exact ⟨rfl, trivial, hlog⟩
      · rintro - -
        refine ⟨by rw [hterm]; rfl, ?_⟩
        rcases hstate with h1 | h2
        · exact Or.inl (by rw [h1]; rfl)
        · exact Or.inr h2
    · rw [if_neg hlt]
      obtain ⟨hiff, hterm, hstate, hne⟩ := hvd c
      refine ⟨by simp [hne, hk], ?_, fun _ h2 => absurd h2 hlt⟩
      rw [hiff]
      constructor
      · rintro ⟨hteq, hgrant, hlog⟩
        exact ⟨hk, le_of_eq hteq, Or.inr ((hcg c).mp hgrant), hlog⟩
      · rintro ⟨-, hle2, hst, hlog⟩
        have hteq : c.term = term := le_antisymm hle2 (not_lt.mp hlt)
        refine ⟨hteq, (hcg c).mpr ?_, hlog⟩
        rcases hst with h1 | h2 | h3
        exacts [absurd h1 hlt, Or.inl h2, Or.inr h3]
  · rw [if_neg hk]
    refine ⟨by simp [hk], ?_, fun hk2 _ => absurd hk2 hk⟩
    constructor
    · rintro ⟨t, ht⟩
      simp at ht
    · rintro ⟨hk2, -⟩
      exact absurd hk2 hk

/-- Witness for `c4_vote_grant_rule` at a concrete node: a leader at
term 3 receiving a vote request for term 7 adopts term 7 and leaves the
leader state. -/
theorem c4_vote_grant_rule_witness :
    (c4NodeLow.handleVoteRequest 1 7 { term := 7, index := 0 }).1.term =
        7 ∧
      ((c4NodeLow.handleVoteRequest 1 7
            { term := 7, index := 0 }).1.state = .wait ∨
        (c4NodeLow.handleVoteRequest 1 7
            { term := 7, index := 0 }).1.state = .votedFor 1) := by
  exact (c4_vote_grant_rule c4NodeLow 1 7
    { term := 7, index := 0 }).2.2 (by decide) (by decide)

end JmapVerify

namespace JmapVerify

/-- C1: the collapse rules of `PendingChanges::deserialize`: an insert of
a document followed (in a later change record) by a delete of the same
document id cancels completely; an insert followed by updates is reported
only as an insert; a delete whose JMAP-id prefix differs from that of an
insert of the same document id inside the same record is reported as an
update, not a delete; and merging `[Insert 4..7]` then `[Delete 4..7]`
leaves all three sets empty, and reading that two-record log from the
`Initial` state through the JMAP `changes` pipeline reports
`created = []`, `updated = []`, `destroyed = []`. -/
theorem c1_collapse_rules :
    (∀ id1 id2 : JMAPId, id1.getDocumentId = id2.getDocumentId →
      PendingChanges.mergeEntries
          [(0, { inserts := [id1] }), (1, { deletes := [id2] })] =
        { inserts := [], updates := [], deletes := [], changes := [0, 1] }) ∧
    (∀ id1 id2 : JMAPId, id1.getDocumentId = id2.getDocumentId →
      PendingChanges.mergeEntries
          [(0, { inserts := [id1] }), (1, { updates := [id2] })] =
        { inserts := [id1.getDocumentId], updates := [], deletes := [],
          changes := [0, 1] }) ∧
    (∀ id1 id2 : JMAPId, id1.getDocumentId = id2.getDocumentId →
      id1.getPrefixId ≠ id2.getPrefixId →
      PendingChanges.mergeEntries
          [(0, { inserts := [id1], deletes := [id2] })] =
        { inserts := [], updates := [id1.getDocumentId], deletes := [],
          changes := [0] }) ∧
    PendingChanges.mergeEntries
        [(0, { inserts := [4, 5, 6, 7] }), (1, { deletes := [4, 5, 6, 7] })] =
      { inserts := [], updates := [], deletes := [], changes := [0, 1] } ∧
    (∃ resp, jmapChanges ⟨0⟩ c1S2Store
        { accountId := 1, sinceState := .initial, maxChanges := some 0 } =
          .ok resp ∧
      resp.created = [] ∧ resp.updated = [] ∧ resp.destroyed = []) := by
  refine ⟨?_, ?_, ?_, by decide, ⟨ChangesResponse.emptyResp 1, by decide,
    rfl, rfl, rfl⟩⟩
  · intro id1 id2 h
    simp [PendingChanges.mergeEntries, PendingChanges.deserializeEntry,
      PendingChanges.mk0, bmInsert, h]
  · intro id1 id2 h
    simp [PendingChanges.mergeEntries, PendingChanges.deserializeEntry,
      PendingChanges.mk0, bmInsert, h]
  · intro id1 id2 h hne
    simp [PendingChanges.mergeEntries, PendingChanges.deserializeEntry,
      PendingChanges.mk0, bmInsert, h, hne]

/-- Witness for `c1_collapse_rules`: a same-record insert/delete pair with
distinct prefixes (a move) collapses to an update of document 4. -/
theorem c1_collapse_rules_witness :
    PendingChanges.mergeEntries
        [(0, { inserts := [(4 : JMAPId)], deletes := [2 ^ 32 + 4] })] =
      { inserts := [], updates := [4], deletes := [], changes := [0] } := by
  have h := c1_collapse_rules.2.2.1 4 (2 ^ 32 + 4) (by decide) (by decide)
  simpa [JMAPId.getDocumentId] using h

end JmapVerify

namespace JmapVerify

theorem splitChanges_foldl (cs : List Change) (a b c : List JMAPId)
    (d : Bool) :
    cs.foldl (fun acc ch =>
      match ch with
      | .insert item => (acc.1 ++ [item], acc.2.1, acc.2.2.1, acc.2.2.2)
      | .update item => (acc.1, acc.2.1 ++ [item], acc.2.2.1, true)
      | .delete item => (acc.1, acc.2.1, acc.2.2.1 ++ [item], acc.2.2.2)
      | .childUpdate item =>
          (acc.1, acc.2.1 ++ [item], acc.2.2.1, acc.2.2.2))
      (a, b, c, d) =
      (a ++ cs.filterMap Change.insertId,
        b ++ cs.filterMap Change.updatedId,
        c ++ cs.filterMap Change.deletedId,
        d || cs.any Change.isUpdate) := by
  induction cs generalizing a b c d with
  | nil => simp
  | cons x xs ih =>
    cases x <;>
      simp [ih, Change.insertId, Change.updatedId, Change.deletedId,
        Change.isUpdate]

theorem splitChanges_spec (cs : List Change) :
    splitChanges cs =
      (cs.filterMap Change.insertId, cs.filterMap Change.updatedId,
        cs.filterMap Change.deletedId, cs.any Change.isUpdate) := by
  unfold splitChanges
  simpa using splitChanges_foldl cs [] [] [] false

theorem split_length_sum (cs : List Change) :
    (cs.filterMap Change.insertId).length +
      (cs.filterMap Change.updatedId).length +
      (cs.filterMap Change.deletedId).length = cs.length := by
  induction cs with
  | nil => rfl
  | cons x xs ih =>
    cases x <;>
      simp [Change.insertId, Change.updatedId, Change.deletedId] <;>
      omega

theorem finishResponse_eq (acc : Nat) (old : JMAPState) (its mx : Nat)
    (hm : Bool) (cl : ChangeLog) :
    finishResponse acc old its mx hm cl =
      { accountId := acc
        totalChanges := cl.changes.length
        hasChildrenChanges :=
          !(cl.changes.filterMap Change.updatedId).isEmpty &&
            !cl.changes.any Change.isUpdate
        hasMoreChanges := hm
        oldState := old
        newState :=
          if hm then
            .intermediate cl.fromChangeId cl.toChangeId (its + mx)
          else
            .exact cl.toChangeId
        created := cl.changes.filterMap Change.insertId
        updated := cl.changes.filterMap Change.updatedId
        destroyed := cl.changes.filterMap Change.deletedId } := by
  unfold finishResponse
  rw [splitChanges_spec]

theorem changesFinish_drain (acc : Nat) (old : JMAPState) (its mx : Nat)
    (cl : ChangeLog) (h : 0 < mx ∧ mx < cl.changes.length) :
    changesFinish acc old its mx cl =
      finishResponse acc old its mx true
        { cl with
          changes := cl.changes.drop (cl.changes.length - mx) } := by
  unfold changesFinish
  rw [if_pos h]

theorem changesFinish_no_drain (acc : Nat) (old : JMAPState)
    (its mx : Nat) (cl : ChangeLog)
    (h : ¬(0 < mx ∧ mx < cl.changes.length)) :
    changesFinish acc old its mx cl =
      finishResponse acc old its mx false cl := by
  unfold changesFinish
  rw [if_neg h]

theorem filterMap_take_split (l : List Change)
    (g : Change → Option JMAPId) (j : Nat) :
    l.filterMap g = (l.take j).filterMap g ++ (l.drop j).filterMap g := by
  rw [← List.filterMap_append, List.take_append_drop]

theorem perm_assemble {B J T1 : List JMAPId} (h : List.Perm J T1) :
    List.Perm (B ++ J) (T1 ++ B) :=
  (h.append_left B).trans (List.perm_append_comm)

theorem effectiveMax_zero (cfg : StoreConfig) :
    effectiveMax cfg (some 0) = 0 := by
  simp [effectiveMax]

theorem effectiveMax_pos (cfg : StoreConfig) {k : Nat} (hk : 1 ≤ k) :
    1 ≤ effectiveMax cfg (some k) ∧ effectiveMax cfg (some k) ≤ k := by
  simp only [effectiveMax, Option.getD_some]
  split_ifs with h
  · exact ⟨h.1, le_of_lt h.2⟩
  · simpa using hk

end JmapVerify

namespace JmapVerify

theorem sorted_le_getLast {l : List LogRecord}
    (hs : l.Pairwise (fun x y => x.changeId < y.changeId)) (hne : l ≠ []) :
    ∀ r ∈ l, r.changeId ≤ (l.getLast hne).changeId := by
  induction l with
  | nil => simp
  | cons a rest ih =>
    intro r hr
    cases rest with
    | nil =>
      simp only [List.mem_singleton] at hr
      subst hr
      simp [List.getLast]
    | cons b rest2 =>
      rw [List.getLast_cons (by simp)]
      rcases List.mem_cons.mp hr with rfl | hr2
      · exact le_of_lt ((List.pairwise_cons.mp hs).1 _
          (List.getLast_mem (by simp)))
      · exact ih ((List.pairwise_cons.mp hs).2) (by simp) r hr2

theorem sorted_head_le {a : LogRecord} {rest : List LogRecord}
    (hs : (a :: rest).Pairwise (fun x y => x.changeId < y.changeId)) :
    ∀ r ∈ a :: rest, a.changeId ≤ r.changeId := by
  intro r hr
  rcases List.mem_cons.mp hr with rfl | hr2
  · exact le_refl _
  · exact le_of_lt ((List.pairwise_cons.mp hs).1 r hr2)

/-- Re-querying the change log with the `(from, to)` bounds reported by
any successful query reproduces exactly the same matched records, hence
the same changelog: the bounds are the first and last matched ids and
the store is sorted by change id. -/
theorem getChanges_stable {store : ChangeLogStore}
    (hsorted : store.Pairwise (fun x y => x.changeId < y.changeId))
    {q : Query} {cl : ChangeLog}
    (h : getChanges store q = some cl) (hne : queryFilter store q ≠ []) :
    getChanges store
      (.rangeInclusive cl.fromChangeId cl.toChangeId) = some cl := by
  unfold getChanges at h ⊢
  cases hqf : queryFilter store q with
  | nil => exact absurd hqf hne
  | cons r rest =>
    rw [hqf] at h
    injection h with h'
    subst h'
    have hsubl : (r :: rest).Sublist store := by
      rcases q with _ | s | ⟨f, t⟩
      · simp only [queryFilter] at hqf
        rw [hqf]
      · simp only [queryFilter] at hqf
        rw [← hqf]
        exact List.filter_sublist store
      · simp only [queryFilter] at hqf
        rw [← hqf]
        exact List.filter_sublist store
    have hsorted2 : (r :: rest).Pairwise
        (fun x y => x.changeId < y.changeId) := hsorted.sublist hsubl
    have hbounds : ∀ x ∈ r :: rest,
        r.changeId ≤ x.changeId ∧
          x.changeId ≤ (((r :: rest)).getLast (by simp)).changeId :=
      fun x hx =>
        ⟨sorted_head_le hsorted2 x hx,
          sorted_le_getLast hsorted2 (by simp) x hx⟩
    have hkey : queryFilter store
        (.rangeInclusive r.changeId
          (((r :: rest)).getLast (by simp)).changeId) = r :: rest := by
      simp only [queryFilter]
      rcases q with _ | s | ⟨f, t⟩
      · simp only [queryFilter] at hqf
        subst hqf
        refine List.filter_eq_self.mpr fun x hx => ?_
        have := hbounds x hx
        simp only [decide_eq_true_eq]
        exact this
      · simp only [queryFilter] at hqf
        have hsr : s < r.changeId := by
          have : r ∈ store.filter (fun x => decide (s < x.changeId)) := by
            rw [hqf]; exact List.mem_cons_self r rest
          simpa using List.of_mem_filter this
        rw [List.filter_congr (fun x hx => ?_), hqf]
        simp only [decide_eq_decide]
        constructor
        · rintro ⟨h1, -⟩
          exact lt_of_lt_of_le hsr h1
        · intro h1
          refine hbounds x ?_
          rw [← hqf]
          exact List.mem_filter.mpr ⟨hx, by simpa using h1⟩
      · simp only [queryFilter] at hqf
        have hfr : f ≤ r.changeId ∧ r.changeId ≤ t := by
          have : r ∈ store.filter
              (fun x => decide (f ≤ x.changeId ∧ x.changeId ≤ t)) := by
            rw [hqf]; exact List.mem_cons_self r rest
          simpa using List.of_mem_filter this
        have hlt : (((r :: rest)).getLast (by simp)).changeId ≤ t := by
          have : ((r :: rest).getLast (by simp)) ∈ store.filter
              (fun x => decide (f ≤ x.changeId ∧ x.changeId ≤ t)) := by
            rw [hqf]; exact List.getLast_mem (by simp)
          have h2 := List.of_mem_filter this
          simp only [decide_eq_true_eq] at h2
          exact h2.2
        rw [List.filter_congr (fun x hx => ?_), hqf]
        simp only [decide_eq_decide]
        constructor
        · rintro ⟨h1, h2⟩
          exact ⟨le_trans hfr.1 h1, le_trans h2 hlt⟩
        · intro h1
          refine hbounds x ?_
          rw [← hqf]
          exact List.mem_filter.mpr ⟨hx, by simpa using h1⟩
    rw [hkey]

end JmapVerify

namespace JmapVerify

theorem getChanges_all_isSome (store : ChangeLogStore) :
    ∃ cl, getChanges store .all = some cl := by
  unfold getChanges
  cases h : queryFilter store .all <;> simp

theorem jmapChanges_intermediate_resume (cfg : StoreConfig)
    (store : ChangeLogStore) (acc : Nat) (mc : Option Nat) (f t m : Nat)
    (cl : ChangeLog) (h : getChanges store (.rangeInclusive f t) = some cl)
    (hm : m < cl.changes.length) :
    jmapChanges cfg store ⟨acc, .intermediate f t m, mc⟩ =
      .ok (changesFinish acc (.intermediate f t m) m (effectiveMax cfg mc)
        { cl with
          changes := cl.changes.take (cl.changes.length - m) }) := by
  simp only [jmapChanges]
  rw [h]
  simp [Nat.not_le.mpr hm]

/-- Resolution of a client state token: a successful `changes` call
serves `(items_sent, changelog)` determined by the state alone — the
page limit only drives the later truncation.  Either the call is the
early empty response of the `Initial` arm, or it serves, for every page
limit, the fixed changelog `cl` minus its `m` newest items. -/
theorem jmapChanges_resolve (cfg : StoreConfig) (store : ChangeLogStore)
    (acc : Nat) (s : JMAPState) (r0 : ChangesResponse)
    (h0 : jmapChanges cfg store ⟨acc, s, some 0⟩ = .ok r0) :
    (∀ mc, jmapChanges cfg store ⟨acc, s, mc⟩ =
        .ok (ChangesResponse.emptyResp acc)) ∨
    ∃ m cl, (m = 0 ∨ m < cl.changes.length) ∧
      (∃ q, getChanges store q = some cl ∧ queryFilter store q ≠ []) ∧
      ∀ mc, jmapChanges cfg store ⟨acc, s, mc⟩ =
        .ok (changesFinish acc s m (effectiveMax cfg mc)
          { cl with
            changes := cl.changes.take (cl.changes.length - m) }) := by
  rcases s with _ | c | ⟨f, t, m0⟩
  · obtain ⟨cl, hall⟩ := getChanges_all_isSome store
    by_cases hcond : cl.changes.isEmpty ∧ cl.fromChangeId = 0
    · left
      intro mc
      simp only [jmapChanges, hall, Option.getD_some]
      rw [if_pos hcond]
    · right
      refine ⟨0, cl, Or.inl rfl, ⟨.all, hall, ?_⟩, ?_⟩
      · intro hemp
        unfold getChanges at hall
        rw [hemp] at hall
        injection hall with h'
        rw [← h'] at hcond
        simp at hcond
      · intro mc
        simp only [jmapChanges, hall, Option.getD_some]
        rw [if_neg hcond]
        simp [List.take_length]
  · simp only [jmapChanges] at h0
    split at h0
    · exact absurd h0 (by simp)
    · next cl hsince =>
      right
      refine ⟨0, cl, Or.inl rfl, ⟨.since c, hsince, ?_⟩, ?_⟩
      · intro hemp
        unfold getChanges at hsince
        rw [hemp] at hsince
        exact absurd hsince (by simp)
      · intro mc
        simp only [jmapChanges, hsince]
        simp [List.take_length]
  · simp only [jmapChanges] at h0
    split at h0
    · exact absurd h0 (by simp)
    · next cl0 hrange =>
      split at h0
      · next hle =>
        split at h0
        · exact absurd h0 (by simp)
        · next cl2 hsince =>
          right
          refine ⟨0, cl2, Or.inl rfl, ⟨.since t, hsince, ?_⟩, ?_⟩
          · intro hemp
            unfold getChanges at hsince
            rw [hemp] at hsince
            exact absurd hsince (by simp)
          · intro mc
            simp only [jmapChanges, hrange]
            rw [if_pos hle]
            simp only [hsince]
            simp [List.take_length]
      · next hle =>
        right
        refine ⟨m0, cl0, Or.inr (Nat.not_le.mp hle),
          ⟨.rangeInclusive f t, hrange, ?_⟩, ?_⟩
        · intro hemp
          unfold getChanges at hrange
          rw [hemp] at hrange
          exact absurd hrange (by simp)
        · intro mc
          simp only [jmapChanges, hrange]
          rw [if_neg hle]

end JmapVerify


namespace JmapVerify

theorem changesFinish_drain_fields (acc : Nat) (old : JMAPState)
    (its mx : Nat) (cl : ChangeLog)
    (h : 0 < mx ∧ mx < cl.changes.length) :
    (changesFinish acc old its mx cl).created =
      (cl.changes.drop (cl.changes.length - mx)).filterMap
        Change.insertId ∧
    (changesFinish acc old its mx cl).updated =
      (cl.changes.drop (cl.changes.length - mx)).filterMap
        Change.updatedId ∧
    (changesFinish acc old its mx cl).destroyed =
      (cl.changes.drop (cl.changes.length - mx)).filterMap
        Change.deletedId ∧
    (changesFinish acc old its mx cl).hasMoreChanges = true ∧
    (changesFinish acc old its mx cl).newState =
      .intermediate cl.fromChangeId cl.toChangeId (its + mx) := by
  rw [changesFinish_drain _ _ _ _ _ h, finishResponse_eq]
  exact ⟨rfl, rfl, rfl, rfl, rfl⟩

theorem changesFinish_no_drain_fields (acc : Nat) (old : JMAPState)
    (its mx : Nat) (cl : ChangeLog)
    (h : ¬(0 < mx ∧ mx < cl.changes.length)) :
    (changesFinish acc old its mx cl).created =
      cl.changes.filterMap Change.insertId ∧
    (changesFinish acc old its mx cl).updated =
      cl.changes.filterMap Change.updatedId ∧
    (changesFinish acc old its mx cl).destroyed =
      cl.changes.filterMap Change.deletedId ∧
    (changesFinish acc old its mx cl).hasMoreChanges = false ∧
    (changesFinish acc old its mx cl).newState = .exact cl.toChangeId := by
  rw [changesFinish_no_drain _ _ _ _ _ h, finishResponse_eq]
  exact ⟨rfl, rfl, rfl, rfl, rfl⟩

end JmapVerify

namespace JmapVerify

/-- The pagination loop: from a stable `Intermediate` token the
iteration drains the remaining prefix of the collapsed range in pages of
at most the effective limit; the concatenation of the pages is a
permutation of that prefix. -/
theorem iterate_loop (cfg : StoreConfig) (store : ChangeLogStore)
    (acc k : Nat) (heff : 1 ≤ effectiveMax cfg (some k)) :
    ∀ rem f t (cl : ChangeLog) (m : Nat),
      getChanges store (.rangeInclusive f t) = some cl →
      cl.fromChangeId = f → cl.toChangeId = t →
      m < cl.changes.length →
      cl.changes.length - m ≤ rem →
      ∃ pages : List ChangesResponse,
        (∀ fuel, rem ≤ fuel →
          iteratePages cfg store acc k (.intermediate f t m) fuel =
            .ok (some pages)) ∧
        List.Perm ((pages.map (fun p => p.created)).flatten)
          ((cl.changes.take (cl.changes.length - m)).filterMap
            Change.insertId) ∧
        List.Perm ((pages.map (fun p => p.updated)).flatten)
          ((cl.changes.take (cl.changes.length - m)).filterMap
            Change.updatedId) ∧
        List.Perm ((pages.map (fun p => p.destroyed)).flatten)
          ((cl.changes.take (cl.changes.length - m)).filterMap
            Change.deletedId) ∧
        ∀ p ∈ pages, p.created.length + p.updated.length +
          p.destroyed.length ≤ effectiveMax cfg (some k) := by
  intro rem
  induction rem using Nat.strong_induction_on with
  | _ rem ih =>
    intro f t cl m hstable hf ht hm hrem
    have hcall := jmapChanges_intermediate_resume cfg store acc (some k)
      f t m cl hstable hm
    have hAlen : (cl.changes.take (cl.changes.length - m)).length =
        cl.changes.length - m := by
      rw [List.length_take]
      omega
    by_cases hdrain :
        effectiveMax cfg (some k) < cl.changes.length - m
    · -- a full page of `eff` newest items, then the loop continues
      have hd : 0 < effectiveMax cfg (some k) ∧
          effectiveMax cfg (some k) <
            (({ cl with
              changes := cl.changes.take (cl.changes.length - m) } :
                ChangeLog)).changes.length := ⟨heff, by
        simpa [hAlen] using hdrain⟩
      obtain ⟨hc, hu, hd', hmore, hnew⟩ := changesFinish_drain_fields acc
        (.intermediate f t m) m (effectiveMax cfg (some k))
        { cl with changes := cl.changes.take (cl.changes.length - m) } hd
      have hnew2 : (changesFinish acc (.intermediate f t m) m
          (effectiveMax cfg (some k))
          { cl with
            changes := cl.changes.take (cl.changes.length - m) }).newState =
          .intermediate f t (m + effectiveMax cfg (some k)) := by
        rw [hnew, hf, ht]
      have hm2 : m + effectiveMax cfg (some k) < cl.changes.length := by
        omega
      have hrem2 : cl.changes.length - (m + effectiveMax cfg (some k)) <
          rem := by omega
      obtain ⟨pages2, hiter2, hc2, hu2, hd2, hsz2⟩ :=
        ih (cl.changes.length - (m + effectiveMax cfg (some k))) hrem2
          f t cl (m + effectiveMax cfg (some k)) hstable hf ht hm2
          le_rfl
      have htt : (cl.changes.take (cl.changes.length - m)).take
          ((cl.changes.take (cl.changes.length - m)).length -
            effectiveMax cfg (some k)) =
          cl.changes.take (cl.changes.length -
            (m + effectiveMax cfg (some k))) := by
        rw [List.take_take, hAlen]
        congr 1
        omega
      refine ⟨changesFinish acc (.intermediate f t m) m
          (effectiveMax cfg (some k))
          { cl with changes := cl.changes.take (cl.changes.length - m) }
          :: pages2, ?_, ?_, ?_, ?_, ?_⟩
      · intro fuel hfuel
        rcases fuel with _ | fuel
        · exact absurd (Nat.le_trans hrem hfuel) (by omega)
        · have hfuel2 : cl.changes.length -
              (m + effectiveMax cfg (some k)) ≤ fuel := by omega
          simp only [iteratePages, hcall, hmore, hnew2, if_true,
            hiter2 fuel hfuel2]
      · simp only [List.map_cons, List.flatten_cons]
        rw [hc, filterMap_take_split
          (cl.changes.take (cl.changes.length - m)) Change.insertId
          ((cl.changes.take (cl.changes.length - m)).length -
            effectiveMax cfg (some k))]
        rw [← htt] at hc2
        exact perm_assemble hc2
      · simp only [List.map_cons, List.flatten_cons]
        rw [hu, filterMap_take_split
          (cl.changes.take (cl.changes.length - m)) Change.updatedId
          ((cl.changes.take (cl.changes.length - m)).length -
            effectiveMax cfg (some k))]
        rw [← htt] at hu2
        exact perm_assemble hu2
      · simp only [List.map_cons, List.flatten_cons]
        rw [hd', filterMap_take_split
          (cl.changes.take (cl.changes.length - m)) Change.deletedId
          ((cl.changes.take (cl.changes.length - m)).length -
            effectiveMax cfg (some k))]
        rw [← htt] at hd2
        exact perm_assemble hd2
      · intro p hp
        rcases List.mem_cons.mp hp with rfl | hp2
        · have hlen := split_length_sum
            ((({ cl with
              changes := cl.changes.take (cl.changes.length - m) } :
                ChangeLog)).changes.drop
              ((({ cl with
                changes := cl.changes.take (cl.changes.length - m) } :
                  ChangeLog)).changes.length -
                effectiveMax cfg (some k)))
          have hAlen2 : (({ cl with
              changes := cl.changes.take (cl.changes.length - m) } :
                ChangeLog)).changes.length = cl.changes.length - m :=
            hAlen
          rw [hc, hu, hd']
          simp only [List.length_drop] at hlen ⊢
          omega
        · exact hsz2 p hp2
    · -- final page: everything that remains fits within the limit
      have hnd : ¬(0 < effectiveMax cfg (some k) ∧
          effectiveMax cfg (some k) <
            (({ cl with
              changes := cl.changes.take (cl.changes.length - m) } :
                ChangeLog)).changes.length) := by
        rintro ⟨-, hlt⟩
        rw [hAlen] at hlt
        exact hdrain hlt
      obtain ⟨hc, hu, hd', hmore, -⟩ := changesFinish_no_drain_fields acc
        (.intermediate f t m) m (effectiveMax cfg (some k))
        { cl with changes := cl.changes.take (cl.changes.length - m) }
        hnd
      refine ⟨[changesFinish acc (.intermediate f t m) m
          (effectiveMax cfg (some k))
          { cl with
            changes := cl.changes.take (cl.changes.length - m) }],
          ?_, ?_, ?_, ?_, ?_⟩
      · intro fuel hfuel
        rcases fuel with _ | fuel
        · exact absurd (Nat.le_trans hrem hfuel) (by omega)
        · simp only [iteratePages, hcall, hmore, Bool.false_eq_true,
            if_false]
      · simp only [List.map_cons, List.map_nil, List.flatten_cons,
          List.flatten_nil, List.append_nil]
        rw [hc]
      · simp only [List.map_cons, List.map_nil, List.flatten_cons,
          List.flatten_nil, List.append_nil]
        rw [hu]
      · simp only [List.map_cons, List.map_nil, List.flatten_cons,
          List.flatten_nil, List.append_nil]
        rw [hd']
      · intro p hp
        rcases List.mem_cons.mp hp with rfl | hp2
        · have hlen := split_length_sum
            (({ cl with
              changes := cl.changes.take (cl.changes.length - m) } :
                ChangeLog)).changes
          have hAlen2 : (({ cl with
              changes := cl.changes.take (cl.changes.length - m) } :
                ChangeLog)).changes.length = cl.changes.length - m :=
            hAlen
          rw [hc, hu, hd']
          omega
        · simp at hp2

end JmapVerify

namespace JmapVerify

/-- C2: over a sorted change log, starting from any state whose
unlimited (`max_changes = 0`) call succeeds, repeatedly calling
`changes` with a fixed limit `k ≥ 1` and feeding each returned
`new_state` back in until `has_more_changes` is false yields, as the
union of all pages, exactly the `(created, updated, destroyed)` items of
the single unlimited call (as multisets), and every page carries at most
`k` items. -/
theorem c2_state_token_round_trip (cfg : StoreConfig)
    (store : ChangeLogStore) (acc k : Nat) (s : JMAPState)
    (r0 : ChangesResponse)
    (hsorted : store.Pairwise (fun a b => a.changeId < b.changeId))
    (hk : 1 ≤ k)
    (h0 : jmapChanges cfg store ⟨acc, s, some 0⟩ = .ok r0) :
    ∃ n pages,
      iteratePages cfg store acc k s n = .ok (some pages) ∧
      List.Perm ((pages.map (fun p => p.created)).flatten) r0.created ∧
      List.Perm ((pages.map (fun p => p.updated)).flatten) r0.updated ∧
      List.Perm ((pages.map (fun p => p.destroyed)).flatten)
        r0.destroyed ∧
      ∀ p ∈ pages, p.created.length + p.updated.length +
        p.destroyed.length ≤ k := by
  obtain ⟨heff1, heffk⟩ := effectiveMax_pos cfg hk
  rcases jmapChanges_resolve cfg store acc s r0 h0 with hempty |
    ⟨m, cl, hm, ⟨q, hq, hqne⟩, hserve⟩
  · have hr0 : r0 = ChangesResponse.emptyResp acc := by
      have h1 := hempty (some 0)
      rw [h0] at h1
      exact Except.ok.inj h1
    refine ⟨1, [ChangesResponse.emptyResp acc], ?_, ?_, ?_, ?_, ?_⟩
    · simp only [iteratePages, hempty (some k)]
      simp [ChangesResponse.emptyResp]
    · rw [hr0]; simp [ChangesResponse.emptyResp]
    · rw [hr0]; simp [ChangesResponse.emptyResp]
    · rw [hr0]; simp [ChangesResponse.emptyResp]
    · intro p hp
      rcases List.mem_cons.mp hp with rfl | hp2
      · simp [ChangesResponse.emptyResp]
      · simp at hp2
  · have hserve0 := hserve (some 0)
    rw [h0] at hserve0
    injection hserve0 with hr0
    rw [effectiveMax_zero] at hr0
    obtain ⟨h0c, h0u, h0d, -, -⟩ := changesFinish_no_drain_fields acc s
      m 0 { cl with changes := cl.changes.take (cl.changes.length - m) }
      (by simp)
    have hstable := getChanges_stable hsorted hq hqne
    have hservek := hserve (some k)
    have hAlen : (cl.changes.take (cl.changes.length - m)).length =
        cl.changes.length - m := by
      rw [List.length_take]; omega
    by_cases hdrain : effectiveMax cfg (some k) <
        cl.changes.length - m
    · have hd : 0 < effectiveMax cfg (some k) ∧
          effectiveMax cfg (some k) <
            (({ cl with
              changes := cl.changes.take (cl.changes.length - m) } :
                ChangeLog)).changes.length :=
        ⟨heff1, by simpa [hAlen] using hdrain⟩
      obtain ⟨hc, hu, hd', hmore, hnew⟩ := changesFinish_drain_fields acc
        s m (effectiveMax cfg (some k))
        { cl with changes := cl.changes.take (cl.changes.length - m) } hd
      simp only [] at hc hu hd' hnew
      rw [hAlen] at hc hu hd'
      have hm2 : m + effectiveMax cfg (some k) < cl.changes.length := by
        rcases hm with rfl | hmlt <;> omega
      obtain ⟨pages2, hiter2, hc2, hu2, hd2, hsz2⟩ :=
        iterate_loop cfg store acc k heff1
          (cl.changes.length - (m + effectiveMax cfg (some k)))
          cl.fromChangeId cl.toChangeId cl
          (m + effectiveMax cfg (some k)) hstable rfl rfl hm2 le_rfl
      have htt : (cl.changes.take (cl.changes.length - m)).take
          ((cl.changes.length - m) - effectiveMax cfg (some k)) =
          cl.changes.take
            (cl.changes.length - (m + effectiveMax cfg (some k))) := by
        rw [List.take_take]
        congr 1
        omega
      rw [← htt] at hc2 hu2 hd2
      refine ⟨(cl.changes.length -
          (m + effectiveMax cfg (some k))) + 1,
        changesFinish acc s m (effectiveMax cfg (some k))
          { cl with changes := cl.changes.take (cl.changes.length - m) }
          :: pages2, ?_, ?_, ?_, ?_, ?_⟩
      · simp only [iteratePages, hservek, hmore, hnew, if_true,
          hiter2 _ le_rfl]
      · simp only [List.map_cons, List.flatten_cons]
        rw [hr0, h0c, hc]
        simp only []
        rw [filterMap_take_split
          (cl.changes.take (cl.changes.length - m)) Change.insertId
          ((cl.changes.length - m) - effectiveMax cfg (some k))]
        exact perm_assemble hc2
      · simp only [List.map_cons, List.flatten_cons]
        rw [hr0, h0u, hu]
        simp only []
        rw [filterMap_take_split
          (cl.changes.take (cl.changes.length - m)) Change.updatedId
          ((cl.changes.length - m) - effectiveMax cfg (some k))]
        exact perm_assemble hu2
      · simp only [List.map_cons, List.flatten_cons]
        rw [hr0, h0d, hd']
        simp only []
        rw [filterMap_take_split
          (cl.changes.take (cl.changes.length - m)) Change.deletedId
          ((cl.changes.length - m) - effectiveMax cfg (some k))]
        exact perm_assemble hd2
      · intro p hp
        rcases List.mem_cons.mp hp with rfl | hp2
        · have hlen := split_length_sum
            ((cl.changes.take (cl.changes.length - m)).drop
              ((cl.changes.length - m) - effectiveMax cfg (some k)))
          rw [hc, hu, hd']
          simp only [List.length_drop, hAlen] at hlen
          omega
        · exact le_trans (hsz2 p hp2) heffk
    · have hnd : ¬(0 < effectiveMax cfg (some k) ∧
          effectiveMax cfg (some k) <
            (({ cl with
              changes := cl.changes.take (cl.changes.length - m) } :
                ChangeLog)).changes.length) := by
        rintro ⟨-, hlt⟩
        rw [hAlen] at hlt
        exact hdrain hlt
      obtain ⟨hc, hu, hd', hmore, -⟩ := changesFinish_no_drain_fields acc
        s m (effectiveMax cfg (some k))
        { cl with changes := cl.changes.take (cl.changes.length - m) }
        hnd
      refine ⟨1, [changesFinish acc s m (effectiveMax cfg (some k))
          { cl with
            changes := cl.changes.take (cl.changes.length - m) }],
          ?_, ?_, ?_, ?_, ?_⟩
      · simp only [iteratePages, hservek, hmore, Bool.false_eq_true,
          if_false]
      · simp only [List.map_cons, List.map_nil, List.flatten_cons,
          List.flatten_nil, List.append_nil]
        rw [hr0, h0c, hc]
      · simp only [List.map_cons, List.map_nil, List.flatten_cons,
          List.flatten_nil, List.append_nil]
        rw [hr0, h0u, hu]
      · simp only [List.map_cons, List.map_nil, List.flatten_cons,
          List.flatten_nil, List.append_nil]
        rw [hr0, h0d, hd']
      · intro p hp
        rcases List.mem_cons.mp hp with rfl | hp2
        · have hlen := split_length_sum
            (cl.changes.take (cl.changes.length - m))
          rw [hc, hu, hd']
          simp only [] at hc hu hd' ⊢
          rw [hAlen] at hlen
          omega
        · simp at hp2

end JmapVerify

namespace JmapVerify

theorem jmapChanges_congr (cfg cfg2 : StoreConfig)
    (store : ChangeLogStore) (acc : Nat) (st : JMAPState)
    (mc mc2 : Option Nat)
    (heff : effectiveMax cfg mc = effectiveMax cfg2 mc2) :
    jmapChanges cfg store ⟨acc, st, mc⟩ =
      jmapChanges cfg2 store ⟨acc, st, mc2⟩ := by
  cases st <;> simp only [jmapChanges, heff]

theorem jmapChanges_ok_shape (cfg : StoreConfig) (store : ChangeLogStore)
    (acc : Nat) (st : JMAPState) (mc : Option Nat)
    (resp : ChangesResponse)
    (h : jmapChanges cfg store ⟨acc, st, mc⟩ = .ok resp) :
    resp = ChangesResponse.emptyResp acc ∨
    ∃ its cl, resp = changesFinish acc st its (effectiveMax cfg mc) cl := by
  rcases st with _ | c | ⟨f, t, m0⟩
  · simp only [jmapChanges] at h
    split at h
    · exact Or.inl (Except.ok.inj h).symm
    · exact Or.inr ⟨0, _, (Except.ok.inj h).symm⟩
  · simp only [jmapChanges] at h
    split at h
    · exact absurd h (by simp)
    · exact Or.inr ⟨0, _, (Except.ok.inj h).symm⟩
  · simp only [jmapChanges] at h
    split at h
    · exact absurd h (by simp)
    · split at h
      · split at h
        · exact absurd h (by simp)
        · exact Or.inr ⟨0, _, (Except.ok.inj h).symm⟩
      · exact Or.inr ⟨m0, _, (Except.ok.inj h).symm⟩

/-- C10: when `changes_max_results` is positive and strictly smaller
than the requested `max_changes`, the server silently serves the
configured cap instead; a request that omits `max_changes` or passes 0
is never clamped — it behaves exactly as under an unconfigured cap and
always returns the whole list in one page (`has_more_changes` false). -/
theorem c10_changes_max_results_clamp :
    (∀ (cfg : StoreConfig) (store : ChangeLogStore)
        (req : ChangesRequest),
      req.maxChanges = none ∨ req.maxChanges = some 0 →
      jmapChanges cfg store req =
        jmapChanges { changesMaxResults := 0 } store req ∧
      ∀ resp, jmapChanges cfg store req = .ok resp →
        resp.hasMoreChanges = false) ∧
    (∀ (cfg : StoreConfig) (store : ChangeLogStore)
        (req : ChangesRequest) (k : Nat),
      req.maxChanges = some k → 0 < cfg.changesMaxResults →
      cfg.changesMaxResults < k →
      jmapChanges cfg store req =
        jmapChanges cfg store
          { req with maxChanges := some cfg.changesMaxResults }) := by
  constructor
  · rintro cfg store ⟨acc, st, mc⟩ hmc
    have heff0 : effectiveMax cfg mc = 0 := by
      rcases hmc with rfl | rfl <;> simp [effectiveMax]
    constructor
    · refine jmapChanges_congr cfg _ store acc st mc mc ?_
      rw [heff0]
      rcases hmc with rfl | rfl <;> simp [effectiveMax]
    · intro resp hresp
      rcases jmapChanges_ok_shape cfg store acc st mc resp hresp with
        rfl | ⟨its, cl, rfl⟩
      · rfl
      · rw [heff0]
        exact (changesFinish_no_drain_fields acc st its 0 cl
          (by simp)).2.2.2.1
  · rintro cfg store ⟨acc, st, mc⟩ k rfl hpos hlt
    refine jmapChanges_congr cfg cfg store acc st (some k)
      (some cfg.changesMaxResults) ?_
    simp only [effectiveMax, Option.getD_some]
    rw [if_pos ⟨hpos, hlt⟩, if_neg (by omega)]

end JmapVerify

namespace JmapVerify

/-- Witness for `c10_changes_max_results_clamp`: a request for 0 is
untouched by a configured cap of 5, and a request for 2 under a cap of
1 equals a request for 1. -/
theorem c10_changes_max_results_clamp_witness :
    jmapChanges ⟨5⟩ c2wStore
        { accountId := 7, sinceState := .initial, maxChanges := some 0 } =
      jmapChanges ⟨0⟩ c2wStore
        { accountId := 7, sinceState := .initial, maxChanges := some 0 } ∧
    jmapChanges ⟨1⟩ c2wStore
        { accountId := 7, sinceState := .initial, maxChanges := some 2 } =
      jmapChanges ⟨1⟩ c2wStore
        { accountId := 7, sinceState := .initial,
          maxChanges := some 1 } := by
  constructor
  · exact (c10_changes_max_results_clamp.1 ⟨5⟩ c2wStore
      { accountId := 7, sinceState := .initial, maxChanges := some 0 }
      (Or.inr rfl)).1
  · exact c10_changes_max_results_clamp.2 ⟨1⟩ c2wStore
      { accountId := 7, sinceState := .initial, maxChanges := some 2 } 2
      rfl (by decide) (by decide)

/-- Witness for `c2_state_token_round_trip` on a concrete two-record
log with page size 1. -/
theorem c2_state_token_round_trip_witness :
    ∃ n pages,
      iteratePages ⟨0⟩ c2wStore 7 1 .initial n = .ok (some pages) ∧
      List.Perm ((pages.map (fun p => p.created)).flatten)
        ({ accountId := 7, totalChanges := 2,
           hasChildrenChanges := false, hasMoreChanges := false,
           oldState := .initial, newState := .exact 1,
           created := [1, 2], updated := [], destroyed := [] } :
             ChangesResponse).created ∧
      List.Perm ((pages.map (fun p => p.updated)).flatten)
        ({ accountId := 7, totalChanges := 2,
           hasChildrenChanges := false, hasMoreChanges := false,
           oldState := .initial, newState := .exact 1,
           created := [1, 2], updated := [], destroyed := [] } :
             ChangesResponse).updated ∧
      List.Perm ((pages.map (fun p => p.destroyed)).flatten)
        ({ accountId := 7, totalChanges := 2,
           hasChildrenChanges := false, hasMoreChanges := false,
           oldState := .initial, newState := .exact 1,
           created := [1, 2], updated := [], destroyed := [] } :
             ChangesResponse).destroyed ∧
      ∀ p ∈ pages, p.created.length + p.updated.length +
        p.destroyed.length ≤ 1 := by
  exact c2_state_token_round_trip ⟨0⟩ c2wStore 7 1 .initial
    { accountId := 7, totalChanges := 2, hasChildrenChanges := false,
      hasMoreChanges := false, oldState := .initial,
      newState := .exact 1, created := [1, 2], updated := [],
      destroyed := [] }
    (by decide) (by decide) (by decide)

theorem changesFinish_totalChanges (acc : Nat) (old : JMAPState)
    (its mx : Nat) (cl : ChangeLog)
    (h : ¬(0 < mx ∧ mx < cl.changes.length)) :
    (changesFinish acc old its mx cl).totalChanges =
      cl.changes.length := by
  rw [changesFinish_no_drain _ _ _ _ _ h, finishResponse_eq]

theorem changesFinish_oldState (acc : Nat) (old old2 : JMAPState)
    (its mx : Nat) (cl : ChangeLog) :
    changesFinish acc old its mx cl =
      { changesFinish acc old2 its mx cl with oldState := old } := by
  simp only [changesFinish]
  split_ifs with h <;>
    rw [finishResponse_eq, finishResponse_eq]

/-- C5: handling of an `Intermediate{from, to, items_sent}` state token:
the server queries `RangeInclusive(from, to)` and (i) reports an unknown
state (`invalidArguments`, the same error as an unknown `Exact` state)
when the range holds no entries; (ii) when `items_sent` is at least the
number of entries in the range, behaves exactly as an `Exact(to)` token
(continuing with `Since(to)` and `items_sent` reset to 0), up to the
echoed `old_state`; (iii) otherwise serves exactly the range minus its
last `items_sent` entries. -/
theorem c5_intermediate_state_handling (cfg : StoreConfig)
    (store : ChangeLogStore) (acc f t m : Nat) (mc : Option Nat) :
    (getChanges store (.rangeInclusive f t) = none →
      jmapChanges cfg store ⟨acc, .intermediate f t m, mc⟩ =
        .error (.invalidArguments stateNotFoundMsg)) ∧
    (∀ s, getChanges store (.since s) = none →
      jmapChanges cfg store ⟨acc, .exact s, mc⟩ =
        .error (.invalidArguments stateNotFoundMsg)) ∧
    (∀ cl, getChanges store (.rangeInclusive f t) = some cl →
      cl.changes.length ≤ m →
      jmapChanges cfg store ⟨acc, .intermediate f t m, mc⟩ =
        (jmapChanges cfg store ⟨acc, .exact t, mc⟩).map
          (fun r => { r with oldState := .intermediate f t m })) ∧
    (∀ cl resp, getChanges store (.rangeInclusive f t) = some cl →
      m < cl.changes.length →
      jmapChanges cfg store ⟨acc, .intermediate f t m, some 0⟩ =
        .ok resp →
      resp.created =
        (cl.changes.take (cl.changes.length - m)).filterMap
          Change.insertId ∧
      resp.updated =
        (cl.changes.take (cl.changes.length - m)).filterMap
          Change.updatedId ∧
      resp.destroyed =
        (cl.changes.take (cl.changes.length - m)).filterMap
          Change.deletedId ∧
      resp.totalChanges = cl.changes.length - m) := by
  refine ⟨?_, ?_, ?_, ?_⟩
  · intro hnone
    simp only [jmapChanges, hnone]
  · intro s hnone
    simp only [jmapChanges, hnone]
  · intro cl hsome hle
    simp only [jmapChanges, hsome]
    rw [if_pos hle]
    cases hsince : getChanges store (.since t) with
    | none => simp only [hsince, Except.map]
    | some cl2 =>
      simp only [hsince, Except.map]
      rw [changesFinish_oldState acc (.intermediate f t m) (.exact t) 0
        (effectiveMax cfg mc) cl2]
  · intro cl resp hsome hm hresp
    rw [jmapChanges_intermediate_resume cfg store acc (some 0) f t m cl
      hsome hm] at hresp
    have hr := Except.ok.inj hresp
    rw [effectiveMax_zero] at hr
    obtain ⟨hc, hu, hd, -, -⟩ := changesFinish_no_drain_fields acc
      (.intermediate f t m) m 0
      { cl with changes := cl.changes.take (cl.changes.length - m) }
      (by simp)
    have htot := changesFinish_totalChanges acc (.intermediate f t m)
      m 0 { cl with changes := cl.changes.take (cl.changes.length - m) }
      (by simp)
    rw [hr] at hc hu hd htot
    refine ⟨hc, hu, hd, ?_⟩
    rw [htot]
    simp only []
    rw [List.length_take]
    omega

/-- Witness for `c5_intermediate_state_handling` on a three-record log
with token `Intermediate{from := 0, to := 2, items_sent := 1}`. -/
theorem c5_intermediate_state_handling_witness :
    ({ accountId := 1, totalChanges := 2, hasChildrenChanges := false,
       hasMoreChanges := false, oldState := .intermediate 0 2 1,
       newState := .exact 2, created := [1, 2], updated := [],
       destroyed := [] } : ChangesResponse).created =
      (([Change.insert 1, Change.insert 2,
          Change.insert 3]).take 2).filterMap Change.insertId ∧
    ({ accountId := 1, totalChanges := 2, hasChildrenChanges := false,
       hasMoreChanges := false, oldState := .intermediate 0 2 1,
       newState := .exact 2, created := [1, 2], updated := [],
       destroyed := [] } : ChangesResponse).totalChanges = 2 := by
  have h := (c5_intermediate_state_handling ⟨0⟩ c5wStore 1 0 2 1
    (some 0)).2.2.2
    { changes := [Change.insert 1, Change.insert 2, Change.insert 3],
      fromChangeId := 0, toChangeId := 2 }
    { accountId := 1, totalChanges := 2, hasChildrenChanges := false,
      hasMoreChanges := false, oldState := .intermediate 0 2 1,
      newState := .exact 2, created := [1, 2], updated := [],
      destroyed := [] }
    (by decide) (by decide) (by decide)
  exact ⟨h.1, h.2.2.2⟩

end JmapVerify

namespace JmapVerify

theorem any_isUpdate_iff (cs : List Change) :
    cs.any Change.isUpdate = true ↔ ∃ id, Change.update id ∈ cs := by
  induction cs with
  | nil => simp
  | cons x xs ih =>
    cases x with
    | insert i =>
      simp only [List.any_cons, Change.isUpdate, Bool.false_or, ih,
        List.mem_cons]
      constructor
      · rintro ⟨id, hid⟩
        exact ⟨id, Or.inr hid⟩
      · rintro ⟨id, h | hid⟩
        · exact absurd h (by simp)
        · exact ⟨id, hid⟩
    | update i =>
      simp only [List.any_cons, Change.isUpdate, Bool.true_or,
        true_iff]
      exact ⟨i, List.mem_cons_self _ _⟩
    | delete i =>
      simp only [List.any_cons, Change.isUpdate, Bool.false_or, ih,
        List.mem_cons]
      constructor
      · rintro ⟨id, hid⟩
        exact ⟨id, Or.inr hid⟩
      · rintro ⟨id, h | hid⟩
        · exact absurd h (by simp)
        · exact ⟨id, hid⟩
    | childUpdate i =>
      simp only [List.any_cons, Change.isUpdate, Bool.false_or, ih,
        List.mem_cons]
      constructor
      · rintro ⟨id, hid⟩
        exact ⟨id, Or.inr hid⟩
      · rintro ⟨id, h | hid⟩
        · exact absurd h (by simp)
        · exact ⟨id, hid⟩

theorem filterMap_updatedId_isEmpty_false (cs : List Change) :
    (cs.filterMap Change.updatedId).isEmpty = false ↔
      (∃ id, Change.update id ∈ cs) ∨
        (∃ id, Change.childUpdate id ∈ cs) := by
  induction cs with
  | nil => simp
  | cons x xs ih =>
    cases x with
    | insert i =>
      simp only [List.filterMap_cons, Change.updatedId, ih,
        List.mem_cons]
      constructor
      · rintro (⟨id, hid⟩ | ⟨id, hid⟩)
        · exact Or.inl ⟨id, Or.inr hid⟩
        · exact Or.inr ⟨id, Or.inr hid⟩
      · rintro (⟨id, h | hid⟩ | ⟨id, h | hid⟩)
        · exact absurd h (by simp)
        · exact Or.inl ⟨id, hid⟩
        · exact absurd h (by simp)
        · exact Or.inr ⟨id, hid⟩
    | update i =>
      simp only [List.filterMap_cons, Change.updatedId,
        List.isEmpty_cons, List.mem_cons]
      constructor
      · rintro -
        exact Or.inl ⟨i, Or.inl rfl⟩
      · rintro -
        trivial
    | delete i =>
      simp only [List.filterMap_cons, Change.updatedId, ih,
        List.mem_cons]
      constructor
      · rintro (⟨id, hid⟩ | ⟨id, hid⟩)
        · exact Or.inl ⟨id, Or.inr hid⟩
        · exact Or.inr ⟨id, Or.inr hid⟩
      · rintro (⟨id, h | hid⟩ | ⟨id, h | hid⟩)
        · exact absurd h (by simp)
        · exact Or.inl ⟨id, hid⟩
        · exact absurd h (by simp)
        · exact Or.inr ⟨id, hid⟩
    | childUpdate i =>
      simp only [List.filterMap_cons, Change.updatedId,
        List.isEmpty_cons, List.mem_cons]
      constructor
      · rintro -
        exact Or.inr ⟨i, Or.inl rfl⟩
      · rintro -
        trivial

/-- C6 counterexample: a change record inserting document 1 and carrying
a child update of document 2 produces a response whose
`has_children_changes` flag is true even though the response also
contains an `Insert` record (`created = [1]`) — the claim requires the
flag to imply an all-`ChildUpdate` response. -/
theorem c6_claim_counterexample :
    ∃ resp, jmapChanges ⟨0⟩ c6Store
        { accountId := 1, sinceState := .initial, maxChanges := some 0 } =
          .ok resp ∧
      resp.hasChildrenChanges = true ∧ resp.created = [1] := by
  refine ⟨ChangesResponse.mk 1 2 true false .initial (.exact 0)
    [1] [2] [], by decide, rfl, rfl⟩

/-- C6 (amended): `has_children_changes` is true iff the served change
list contains at least one `ChildUpdate` record and no plain `Update`
record; `Insert` and `Delete` records do not affect the flag. -/
theorem c6_has_children_changes_rule (acc : Nat) (old : JMAPState)
    (its mx : Nat) (hm : Bool) (cl : ChangeLog) :
    (finishResponse acc old its mx hm cl).hasChildrenChanges = true ↔
      ((∃ id, Change.childUpdate id ∈ cl.changes) ∧
        ∀ id, Change.update id ∉ cl.changes) := by
  rw [finishResponse_eq]
  simp only [Bool.and_eq_true, Bool.not_eq_true']
  constructor
  · rintro ⟨h1, h2⟩
    have hnu : ¬∃ id, Change.update id ∈ cl.changes := fun hex => by
      rw [(any_isUpdate_iff cl.changes).mpr hex] at h2
      simp at h2
    rcases (filterMap_updatedId_isEmpty_false cl.changes).mp h1 with
      hu | hcu
    · exact absurd hu hnu
    · exact ⟨hcu, fun id hid => hnu ⟨id, hid⟩⟩
  · rintro ⟨⟨id, hcu⟩, hnu⟩
    refine ⟨(filterMap_updatedId_isEmpty_false cl.changes).mpr
      (Or.inr ⟨id, hcu⟩), ?_⟩
    by_contra h2
    have h3 : cl.changes.any Change.isUpdate = true := by
      rcases Bool.eq_false_or_eq_true (cl.changes.any Change.isUpdate)
        with h | h
      · exact h
      · exact absurd h h2
    obtain ⟨id2, hid2⟩ := (any_isUpdate_iff cl.changes).mp h3
    exact hnu id2 hid2

end JmapVerify

namespace JmapVerify

theorem length_le_utf8Length (s : List Char) : s.length ≤ utf8Length s := by
  induction s with
  | nil => simp [utf8Length]
  | cons c cs ih =>
    have hc : 1 ≤ charUtf8Size c := by
      unfold charUtf8Size
      split_ifs <;> omega
    simp only [utf8Length, List.map_cons, List.sum_cons,
      List.length_cons] at ih ⊢
    omega

theorem alphanumeric_getD_mem :
    ∀ i, i < 62 → alphanumericChars.getD i 'A' ∈ alphanumericChars := by
  decide

/-- C7: `PushSubscription/set` create (i) rejects every `url` that does
not start with `https://` or is at least 512 characters long with an
`InvalidProperties` error naming `url`; (ii) clamps an `expires` further
than seven days in the future to `now + 7 days`; (iii) defaults an
absent `expires` to `now + 7 days`; and (iv) stores as verification code
the 32 freshly sampled alphanumeric characters of the random source. -/
theorem c7_push_subscription_create_rules :
    (∀ (docs : Nat) (ct : Int) (rng : Nat → Fin 62)
        (validate : PSFields → Option SetError) (s : List Char)
        (rest : List (PSProperty × PSValue)),
      docs ≤ MAX_SUBSCRIPTIONS →
      (¬("https://".data).isPrefixOf s ∨ 512 ≤ s.length) →
      pushSubscriptionCreate docs ct rng validate
          ((.url, .text s) :: rest) =
        .error (SetError.invalidProperty .url
          "Field could not be set.")) ∧
    (∀ (docs : Nat) (ct ts : Int) (rng : Nat → Fin 62)
        (validate : PSFields → Option SetError) (resp : PSFields),
      docs ≤ MAX_SUBSCRIPTIONS → ct < ts → EXPIRES_MAX < ts - ct →
      pushSubscriptionCreate docs ct rng validate
          [(.expires, .dateTime ts)] = .ok resp →
      resp .expires = some (.object (.dateTime (ct + EXPIRES_MAX)))) ∧
    (∀ (docs : Nat) (ct : Int) (rng : Nat → Fin 62)
        (validate : PSFields → Option SetError) (resp : PSFields),
      docs ≤ MAX_SUBSCRIPTIONS →
      pushSubscriptionCreate docs ct rng validate [] = .ok resp →
      resp .expires = some (.object (.dateTime (ct + EXPIRES_MAX))) ∧
      resp .verificationCode_ = some (.object (.text
        (sampleAlphanumeric rng VERIFICATION_CODE_LEN))) ∧
      (sampleAlphanumeric rng VERIFICATION_CODE_LEN).length = 32 ∧
      ∀ c ∈ sampleAlphanumeric rng VERIFICATION_CODE_LEN,
        c ∈ alphanumericChars) := by
  refine ⟨?_, ?_, ?_⟩
  · intro docs ct rng validate s rest hdocs hbad
    have hguard : ¬(("https://".data).isPrefixOf s ∧
        utf8Length s < 512) := by
      rintro ⟨hpre, hlen⟩
      rcases hbad with hb | hb
      · exact hb hpre
      · have := length_le_utf8Length s
        omega
    have hstep : psCreateStep (PSFields.empty, (none : Option Int))
        (.url, .text s) =
        .error (SetError.invalidProperty .url
          "Field could not be set.") := by
      simp only [psCreateStep]
      rw [if_neg hguard]
    simp only [pushSubscriptionCreate, List.foldlM_cons, hstep]
    rw [if_neg (by omega)]
    rfl
  · intro docs ct ts rng validate resp hdocs hgt hfar hok
    simp only [pushSubscriptionCreate, List.foldlM_cons,
      List.foldlM_nil, psCreateStep] at hok
    rw [if_neg (by omega)] at hok
    simp only [Option.getD_some, bind, Except.bind, pure,
      Except.pure] at hok
    rw [if_pos ⟨by omega, by omega⟩] at hok
    split at hok
    · exact absurd hok (by simp)
    · have hr := Except.ok.inj hok
      rw [← hr]
      rfl
  · intro docs ct rng validate resp hdocs hok
    simp only [pushSubscriptionCreate, List.foldlM_nil] at hok
    rw [if_neg (by omega)] at hok
    simp only [Option.getD_none, bind, Except.bind, pure,
      Except.pure] at hok
    rw [if_neg (by omega)] at hok
    split at hok
    · exact absurd hok (by simp)
    · have hr := Except.ok.inj hok
      rw [← hr]
      refine ⟨rfl, rfl, by simp [sampleAlphanumeric, VERIFICATION_CODE_LEN], ?_⟩
      intro c hc
      simp only [sampleAlphanumeric, List.mem_map] at hc
      obtain ⟨i, -, rfl⟩ := hc
      exact alphanumeric_getD_mem _ (rng i).isLt

/-- Witness for `c7_push_subscription_create_rules`: the S4 scenario —
`{url: "http://x"}` is rejected naming `url`, and an `expires` thirty
days out is clamped to seven. -/
theorem c7_push_subscription_create_rules_witness :
    pushSubscriptionCreate 3 1000 (fun _ => ⟨0, by omega⟩)
        (fun _ => none) [(.url, .text "http://x".data)] =
      .error (SetError.invalidProperty .url "Field could not be set.") ∧
    ∀ resp, pushSubscriptionCreate 3 1000 (fun _ => ⟨0, by omega⟩)
        (fun _ => none)
        [(.expires, .dateTime (1000 + 30 * 24 * 3600))] = .ok resp →
      resp .expires =
        some (.object (.dateTime (1000 + EXPIRES_MAX))) := by
  constructor
  · exact c7_push_subscription_create_rules.1 3 1000 _ _ _ []
      (by decide) (Or.inl (by decide))
  · intro resp hok
    exact c7_push_subscription_create_rules.2.1 3 1000 _ _ _ resp
      (by decide) (by decide) (by decide) hok

end JmapVerify

namespace JmapVerify

/-- C3: `update_documents` applies every mutation of a write batch
(bitmap set/clear deltas, stored values, index entries, term-index and
blob-reference merges, change-log and Raft-log appends) through one
single KV write performed as its last step: on any error the store is
unchanged, and on success exactly one batch — the accumulated one,
submitted through `db.write` — is appended to the committed history.
The concrete instance shows every mutation category landing inside
that single batch. -/
theorem c3_update_documents_atomicity :
    (∀ (o : UpdateOracles) (account : Nat) (raftId : RaftId)
        (batches : List WriteBatch) (db : KVHistory) (e : DbError),
      (update_documents_run o account raftId batches db).1 = .error e →
      (update_documents_run o account raftId batches db).2 = db) ∧
    (∀ (o : UpdateOracles) (account : Nat) (raftId : RaftId)
        (batches : List WriteBatch) (db : KVHistory),
      (update_documents_run o account raftId batches db).1 = .ok () →
      ∃ ops, update_documents o account raftId batches = .ok ops ∧
        o.dbWrite ops = .ok () ∧
        (update_documents_run o account raftId batches db).2 =
          db ++ [ops]) ∧
    (update_documents c3Oracles 2 ⟨1, 4⟩ c3Batches = .ok c3Ops ∧
      update_documents_run c3Oracles 2 ⟨1, 4⟩ c3Batches c3Db =
        (.ok (), c3Db ++ [c3Ops]) ∧
      .mergeOp .bitmaps (.bmInternal 2 1 BM_USED_IDS)
        (.setClearBits [(3, true)]) ∈ c3Ops ∧
      .mergeOp .bitmaps (.bmInternal 2 1 BM_TOMBSTONED_IDS)
        (.setClearBits [(5, true)]) ∈ c3Ops ∧
      .setOp .values (.stored 2 1 3 0)
        (.bytes [104, 101, 108, 108, 111]) ∈ c3Ops ∧
      .setOp .indexes (.indexKey 2 1 3 3 [42]) .emptyVal ∈ c3Ops ∧
      .mergeOp .bitmaps (.bmTerm 2 1 1 5 true)
        (.setClearBits [(3, true)]) ∈ c3Ops ∧
      .mergeOp .bitmaps (.bmTag 2 1 2 4)
        (.setClearBits [(3, true)]) ∈ c3Ops ∧
      .setOp .values (.acd 2 1 3)
        (.termIndex [(1, 0, [(5, 6)])]) ∈ c3Ops ∧
      .mergeOp .values (.blobRef 103) (.int64 1) ∈ c3Ops ∧
      .mergeOp .values (.blobRef 77) (.int64 (-1)) ∈ c3Ops ∧
      .setOp .values (.blobKey 2 1 3) (.blobEntries [103]) ∈ c3Ops ∧
      .setOp .logs (.logChange 2 1 8)
        (.changeEntry (.insert 3)) ∈ c3Ops ∧
      .setOp .logs (.logChange 2 1 9)
        (.changeEntry (.delete 5)) ∈ c3Ops ∧
      .setOp .logs (.logRaft 1 4)
        (.raftEntry 2 [(1, 8), (1, 9)]) ∈ c3Ops) := by
  refine ⟨?_, ?_, ?_⟩
  · intro o account raftId batches db e
    simp only [update_documents_run]
    split
    · intro _; rfl
    · split
      · intro _; rfl
      · intro h; exact absurd h (fun h => Except.noConfusion h)
  · intro o account raftId batches db
    simp only [update_documents_run]
    split
    · intro h; exact absurd h (fun h => Except.noConfusion h)
    · next ops hud =>
      split
      · intro h; exact absurd h (fun h => Except.noConfusion h)
      · next u hw =>
        intro _
        exact ⟨ops, hud, by rw [hw], rfl⟩
  · decide

/-- Witness for `c3_update_documents_atomicity`: with a failing KV
write the committed history is unchanged, and with a succeeding one
the run appends exactly the single accumulated batch. -/
theorem c3_update_documents_atomicity_witness :
    ((update_documents_run c3FailOracles 2 ⟨1, 4⟩ c3Batches c3Db).1 =
        .error (.internal "disk full") ∧
      (update_documents_run c3FailOracles 2 ⟨1, 4⟩ c3Batches
        c3Db).2 = c3Db) ∧
    ((update_documents_run c3Oracles 2 ⟨1, 4⟩ c3Batches c3Db).1 =
        .ok () ∧
      ∃ ops, update_documents c3Oracles 2 ⟨1, 4⟩ c3Batches =
          .ok ops ∧
        c3Oracles.dbWrite ops = .ok () ∧
        (update_documents_run c3Oracles 2 ⟨1, 4⟩ c3Batches c3Db).2 =
          c3Db ++ [ops]) := by
  constructor
  · exact ⟨by decide, c3_update_documents_atomicity.1 c3FailOracles 2
      ⟨1, 4⟩ c3Batches c3Db (.internal "disk full") (by decide)⟩
  · exact ⟨by decide, c3_update_documents_atomicity.2.1 c3Oracles 2
      ⟨1, 4⟩ c3Batches c3Db (by decide)⟩

end JmapVerify
